import Mathlib

/-!
Verification of the recipe interchange protocol of the my-recipe-box app.

The development shallowly embeds the sharing codec (`src/utils/sharing.ts`)
and the backup versioning utilities (`src/utils/backupVersioning.ts`).
JavaScript values that travel through `JSON.stringify` / `JSON.parse` are
modelled by the inductive `Json` below; strings are Lean strings (sequences
of unicode scalar values, as in JS minus lone surrogates), and JSON numbers
are modelled as integers, which covers every numeric field the codec emits
(versions, timestamps, counts, servings, times, ratings).  The base64 and
UTF-8 transport used by `btoa(unescape(encodeURIComponent(s)))` and its
inverse, and the `CryptoJS.MD5` checksum, are embedded executably so that
concrete links can be evaluated inside Lean.  Database access
(`getMigrationInfo`, `getAllRecipes`) is modelled by passing the current
schema version and the stored recipe list explicitly.
-/

set_option maxRecDepth 8000
set_option maxHeartbeats 2000000

namespace RecipeBox

/-! ## JSON values

JS objects keep insertion order of keys, and `JSON.stringify` serializes
fields in that order, so object fields are an ordered list.  Fields whose
value is `undefined` are dropped by `JSON.stringify`; the embedding builds
objects with such fields already dropped, which is observationally the same
for every use in the codec (serialization and property lookup). -/

mutual
inductive Json where
  | null : Json
  | bool (b : Bool) : Json
  | num (n : Int) : Json
  | str (s : String) : Json
  | arr (xs : JsonItems) : Json
  | obj (fs : JsonFields) : Json
  deriving DecidableEq, Repr

inductive JsonItems where
  | nil : JsonItems
  | cons (hd : Json) (tl : JsonItems) : JsonItems
  deriving DecidableEq, Repr

inductive JsonFields where
  | nil : JsonFields
  | cons (k : String) (v : Json) (tl : JsonFields) : JsonFields
  deriving DecidableEq, Repr
end

/-- List of items of a JSON array. -/
def JsonItems.toList : JsonItems → List Json
  | .nil => []
  | .cons x tl => x :: tl.toList

/-- Build a JSON array from a list. -/
def JsonItems.ofList : List Json → JsonItems
  | [] => .nil
  | x :: tl => .cons x (JsonItems.ofList tl)

/-- Length of a JSON array, the JS `database.length`. -/
def JsonItems.length : JsonItems → Nat
  | .nil => 0
  | .cons _ tl => tl.length + 1

/-- Build object fields from a list of key-value pairs. -/
def JsonFields.ofList : List (String × Json) → JsonFields
  | [] => .nil
  | (k, v) :: tl => .cons k v (JsonFields.ofList tl)

/-- Property lookup on object fields.  `JSON.parse` collapses duplicate keys
keeping the last occurrence, so lookup takes the last matching entry. -/
def JsonFields.get : JsonFields → String → Option Json
  | .nil, _ => none
  | .cons k v tl, key => match tl.get key with
    | some w => some w
    | none => if k = key then some v else none

/-- Property access on an arbitrary JS value: anything but an object yields
`undefined` for the properties the codec reads. -/
def Json.field : Json → String → Option Json
  | .obj fs, key => fs.get key
  | _, _ => none

/-- Delete a property, as the JS `delete o.key` used on checksum records. -/
def JsonFields.erase : JsonFields → String → JsonFields
  | .nil, _ => .nil
  | .cons k v tl, key => if k = key then tl.erase key else .cons k v (tl.erase key)

/-- Replace the value of a property in place (JS assignment to an existing
key keeps its position); appends when the key is absent. -/
def JsonFields.set : JsonFields → String → Json → JsonFields
  | .nil, key, w => .cons key w .nil
  | .cons k v tl, key, w =>
    if k = key then .cons k w tl else .cons k v (tl.set key w)

/-- Membership of a key. -/
def JsonFields.has : JsonFields → String → Bool
  | .nil, _ => false
  | .cons k _ tl, key => k = key || tl.has key

/-- JS truthiness of a defined value. -/
def Json.truthy : Json → Bool
  | .null => false
  | .bool b => b
  | .num n => n != 0
  | .str s => s != ""
  | .arr _ => true
  | .obj _ => true

/-- JS truthiness of a possibly-undefined value. -/
def jsTruthy : Option Json → Bool
  | none => false
  | some v => v.truthy

/-! ## JSON serialization, the JS `JSON.stringify`

Output has no whitespace, object fields keep their order, strings escape
the quote, the backslash and control characters exactly as V8 does (the
five short escapes, `\u00xx` lowercase otherwise), and integers print in
decimal.  All recursion is structural so the kernel can evaluate it. -/

/-- Lowercase hexadecimal digit. -/
def hexChar (n : Nat) : Char := Char.ofNat (if n < 10 then 48 + n else 87 + n)

/-- Decimal digits of a natural number, most significant first.  The fuel
argument makes the recursion structural; `natChars` supplies enough. -/
def natCharsAux : Nat → Nat → List Char
  | 0, _ => []
  | fuel + 1, n =>
    if n < 10 then [Char.ofNat (48 + n)]
    else natCharsAux fuel (n / 10) ++ [Char.ofNat (48 + n % 10)]

/-- Decimal representation of a natural number. -/
def natChars (n : Nat) : List Char := natCharsAux (n + 1) n

/-- Decimal representation of an integer, as JS prints integral numbers. -/
def intChars (n : Int) : List Char :=
  if n < 0 then '-' :: natChars n.natAbs else natChars n.toNat

/-- JSON escape of one character inside a string literal. -/
def escapeChar (c : Char) : List Char :=
  if c = '"' then ['\\', '"']
  else if c = '\\' then ['\\', '\\']
  else if c.toNat = 8 then ['\\', 'b']
  else if c.toNat = 9 then ['\\', 't']
  else if c.toNat = 10 then ['\\', 'n']
  else if c.toNat = 12 then ['\\', 'f']
  else if c.toNat = 13 then ['\\', 'r']
  else if c.toNat < 32 then ['\\', 'u', '0', '0', hexChar (c.toNat / 16), hexChar (c.toNat % 16)]
  else [c]

/-- JSON escape of the characters of a string body. -/
def escChars : List Char → List Char
  | [] => []
  | c :: cs => escapeChar c ++ escChars cs

/-- Serialized JSON string literal. -/
def strChars (s : String) : List Char := '"' :: escChars s.data ++ ['"']

mutual
/-- Characters of the JSON serialization of a value. -/
def jsonChars : Json → List Char
  | .null => 'n' :: ['u', 'l', 'l']
  | .bool true => 't' :: ['r', 'u', 'e']
  | .bool false => 'f' :: ['a', 'l', 's', 'e']
  | .num n => intChars n
  | .str s => strChars s
  | .arr xs => '[' :: itemsChars xs
  | .obj fs => '{' :: fieldsChars fs
termination_by structural j => j

/-- Serialization of array items, including separators and the closing
bracket. -/
def itemsChars : JsonItems → List Char
  | .nil => [']']
  | .cons x .nil => jsonChars x ++ [']']
  | .cons x (.cons y tl) => jsonChars x ++ ',' :: itemsChars (.cons y tl)
termination_by structural xs => xs

/-- Serialization of object fields, including separators and the closing
brace. -/
def fieldsChars : JsonFields → List Char
  | .nil => ['}']
  | .cons k v .nil => strChars k ++ ':' :: jsonChars v ++ ['}']
  | .cons k v (.cons k2 v2 tl) =>
      strChars k ++ ':' :: jsonChars v ++ ',' :: fieldsChars (.cons k2 v2 tl)
termination_by structural fs => fs
end

/-- The JS `JSON.stringify` on the modelled values. -/
def jsonStringify (j : Json) : String := ⟨jsonChars j⟩

example : jsonStringify (.obj (.ofList
    [("a", .num 12), ("b", .arr (.cons .null (.cons (.str "x\"y") .nil)))]))
    = "\x7b\"a\":12,\"b\":[null,\"x\\\"y\"]\x7d" := by decide

example : jsonStringify (.num (-35)) = "-35" := by rfl

/-! ## JSON parsing, the JS `JSON.parse`

The decoder only ever meets strings produced by `JSON.stringify` (the
corrupted cases the claims exercise are modelled at the value level), so
the parser recognizes the canonical serialization: no insignificant
whitespace, integral numbers, and the standard string escapes with
`\uxxxx` restricted below the surrogate range.  Failure is `none`, which
the codec maps to its corrupted outcome exactly as the JS `try`/`catch`
around `JSON.parse` does. -/

/-- Decimal digit test. -/
def isDigitCh (c : Char) : Bool := 48 ≤ c.toNat && c.toNat ≤ 57

/-- Value of a hexadecimal digit. -/
def hexVal (c : Char) : Option Nat :=
  if 48 ≤ c.toNat && c.toNat ≤ 57 then some (c.toNat - 48)
  else if 97 ≤ c.toNat && c.toNat ≤ 102 then some (c.toNat - 87)
  else if 65 ≤ c.toNat && c.toNat ≤ 70 then some (c.toNat - 55)
  else none

/-- Prepend a character to a pending string-literal parse. -/
def strConsR (c : Char) : Option (List Char × List Char) → Option (List Char × List Char)
  | some (cs, r) => some (c :: cs, r)
  | none => none

/-- Parse the body of a string literal after the opening quote, returning
the unescaped characters and the input after the closing quote.  The fuel
makes the recursion structural; one unit per produced character suffices
and the callers supply the input length plus one. -/
def parseStrAux : Nat → List Char → Option (List Char × List Char)
  | 0, _ => none
  | fuel + 1, input =>
    match input with
    | [] => none
    | c :: rest =>
      if c = '"' then some ([], rest)
      else if c = '\\' then
        match rest with
        | [] => none
        | e :: r2 =>
          if e = '"' then strConsR '"' (parseStrAux fuel r2)
          else if e = '\\' then strConsR '\\' (parseStrAux fuel r2)
          else if e = '/' then strConsR '/' (parseStrAux fuel r2)
          else if e = 'b' then strConsR (Char.ofNat 8) (parseStrAux fuel r2)
          else if e = 't' then strConsR (Char.ofNat 9) (parseStrAux fuel r2)
          else if e = 'n' then strConsR (Char.ofNat 10) (parseStrAux fuel r2)
          else if e = 'f' then strConsR (Char.ofNat 12) (parseStrAux fuel r2)
          else if e = 'r' then strConsR (Char.ofNat 13) (parseStrAux fuel r2)
          else if e = 'u' then
            match r2 with
            | h1 :: h2 :: h3 :: h4 :: r3 =>
              match hexVal h1, hexVal h2, hexVal h3, hexVal h4 with
              | some a, some b, some c2, some d =>
                let n := ((a * 16 + b) * 16 + c2) * 16 + d
                if n < 55296 then strConsR (Char.ofNat n) (parseStrAux fuel r3) else none
              | _, _, _, _ => none
            | _ => none
          else none
      else if c.toNat < 32 then none
      else strConsR c (parseStrAux fuel rest)

/-- Greedily parse decimal digits into an accumulator. -/
def parseNatAcc : Nat → List Char → Nat × List Char
  | acc, [] => (acc, [])
  | acc, c :: rest =>
    if isDigitCh c then parseNatAcc (acc * 10 + (c.toNat - 48)) rest
    else (acc, c :: rest)

mutual
/-- Parse one JSON value; the fuel bounds nesting and is amply supplied by
the input length at top level. -/
def parseVal : Nat → List Char → Option (Json × List Char)
  | 0, _ => none
  | _ + 1, [] => none
  | fuel + 1, c :: rest =>
    if c = 'n' then match rest with
      | 'u' :: 'l' :: 'l' :: r => some (.null, r)
      | _ => none
    else if c = 't' then match rest with
      | 'r' :: 'u' :: 'e' :: r => some (.bool true, r)
      | _ => none
    else if c = 'f' then match rest with
      | 'a' :: 'l' :: 's' :: 'e' :: r => some (.bool false, r)
      | _ => none
    else if c = '"' then
      match parseStrAux (rest.length + 1) rest with
      | some (cs, r) => some (.str ⟨cs⟩, r)
      | none => none
    else if c = '[' then
      match rest with
      | [] => none
      | c2 :: r =>
        if c2 = ']' then some (.arr .nil, r)
        else match parseItems fuel (c2 :: r) with
          | some (xs, r2) => some (.arr xs, r2)
          | none => none
    else if c = '{' then
      match rest with
      | [] => none
      | c2 :: r =>
        if c2 = '}' then some (.obj .nil, r)
        else match parseFields fuel (c2 :: r) with
          | some (fs, r2) => some (.obj fs, r2)
          | none => none
    else if c = '-' then
      match rest with
      | [] => none
      | c2 :: r =>
        if isDigitCh c2 then
          match parseNatAcc 0 (c2 :: r) with
          | (n, r2) => some (.num (-(n : Int)), r2)
        else none
    else if isDigitCh c then
      match parseNatAcc 0 (c :: rest) with
      | (n, r) => some (.num (n : Int), r)
    else none
termination_by structural fuel => fuel

/-- Parse the items of a nonempty array up to and including the closing
bracket. -/
def parseItems : Nat → List Char → Option (JsonItems × List Char)
  | 0, _ => none
  | fuel + 1, input =>
    match parseVal fuel input with
    | none => none
    | some (j, r) =>
      match r with
      | [] => none
      | c :: r2 =>
        if c = ',' then
          match parseItems fuel r2 with
          | some (xs, r3) => some (.cons j xs, r3)
          | none => none
        else if c = ']' then some (.cons j .nil, r2)
        else none
termination_by structural fuel => fuel

/-- Parse the fields of a nonempty object up to and including the closing
brace. -/
def parseFields : Nat → List Char → Option (JsonFields × List Char)
  | 0, _ => none
  | fuel + 1, input =>
    match input with
    | [] => none
    | c :: rest =>
      if c = '"' then
        match parseStrAux (rest.length + 1) rest with
        | none => none
        | some (k, r1) =>
          match r1 with
          | [] => none
          | c2 :: r2 =>
            if c2 = ':' then
              match parseVal fuel r2 with
              | none => none
              | some (v, r3) =>
                match r3 with
                | [] => none
                | c3 :: r4 =>
                  if c3 = ',' then
                    match parseFields fuel r4 with
                    | some (fs, r5) => some (.cons ⟨k⟩ v fs, r5)
                    | none => none
                  else if c3 = '}' then some (.cons ⟨k⟩ v .nil, r4)
                  else none
            else none
      else none
termination_by structural fuel => fuel
end

/-- The JS `JSON.parse` on canonical inputs: parse one value consuming the
whole string. -/
def parseJson (s : String) : Option Json :=
  match parseVal (s.data.length + 1) s.data with
  | some (j, []) => some j
  | _ => none

example : parseJson "\x7b\"a\":12,\"b\":[null,\"x\\\"y\"],\"c\":-4\x7d"
    = some (.obj (.ofList [("a", .num 12),
        ("b", .arr (.cons .null (.cons (.str "x\"y") .nil))), ("c", .num (-4))])) := by
  decide

/-! ## Parse inverts stringify

The decoder applies `JSON.parse` to strings the encoder produced with
`JSON.stringify`; the lemmas here show the embedded parser returns exactly
the serialized value. -/

/-- The continuation after a serialized number may not begin with a digit;
this holds at every position a value ends (separator, bracket or end of
input). -/
def notDigitStart : List Char → Bool
  | [] => true
  | c :: _ => !isDigitCh c

theorem dig_facts : ∀ n, n < 10 →
    (isDigitCh (Char.ofNat (48 + n)) = true ∧ (Char.ofNat (48 + n)).toNat = 48 + n) := by
  decide

theorem hex_facts : ∀ n, n < 16 → hexVal (hexChar n) = some n := by decide

theorem digit_dispatch (c : Char) (h : isDigitCh c = true) :
    c ≠ 'n' ∧ c ≠ 't' ∧ c ≠ 'f' ∧ c ≠ '"' ∧ c ≠ '[' ∧ c ≠ '{' ∧ c ≠ '-' ∧
    c ≠ ']' ∧ c ≠ '}' ∧ c ≠ ',' ∧ c ≠ ':' := by
  refine ⟨?_, ?_, ?_, ?_, ?_, ?_, ?_, ?_, ?_, ?_, ?_⟩ <;>
    (intro heq; rw [heq] at h; exact absurd h (by decide))

theorem natCharsAux_cons (fuel n : Nat) (h : n < fuel) :
    ∃ c cs, natCharsAux fuel n = c :: cs ∧ isDigitCh c = true := by
  induction fuel generalizing n with
  | zero => omega
  | succ fuel ih =>
    by_cases h10 : n < 10
    · exact ⟨Char.ofNat (48 + n), [], by simp [natCharsAux, h10], (dig_facts n h10).1⟩
    · obtain ⟨c, cs, hcs, hd⟩ := ih (n / 10) (by omega)
      exact ⟨c, cs ++ [Char.ofNat (48 + n % 10)], by simp [natCharsAux, h10, hcs], hd⟩

theorem natChars_cons (n : Nat) :
    ∃ c cs, natChars n = c :: cs ∧ isDigitCh c = true :=
  natCharsAux_cons (n + 1) n (by omega)

theorem natCharsAux_digits (fuel n : Nat) : ∀ c ∈ natCharsAux fuel n, isDigitCh c = true := by
  induction fuel generalizing n with
  | zero => simp [natCharsAux]
  | succ fuel ih =>
    intro c hc
    by_cases h10 : n < 10
    · simp [natCharsAux, h10] at hc
      subst hc; exact (dig_facts n h10).1
    · simp [natCharsAux, h10] at hc
      rcases hc with hc | hc
      · exact ih _ c hc
      · subst hc; exact (dig_facts (n % 10) (by omega)).1

/-- Digit accumulation step of the number parser. -/
def digStep (acc : Nat) (c : Char) : Nat := acc * 10 + (c.toNat - 48)

theorem natCharsAux_foldl (fuel : Nat) : ∀ n acc, n < fuel →
    (natCharsAux fuel n).foldl digStep acc = acc * 10 ^ (natCharsAux fuel n).length + n := by
  induction fuel with
  | zero => intro n acc h; omega
  | succ fuel ih =>
    intro n acc h
    by_cases h10 : n < 10
    · simp [natCharsAux, h10, digStep, (dig_facts n h10).2]
    · have hd : n / 10 < fuel := by omega
      simp only [natCharsAux, if_neg h10, List.foldl_append, List.length_append,
        List.foldl_cons, List.foldl_nil, List.length_cons, List.length_nil]
      rw [ih _ acc hd]
      simp only [digStep, (dig_facts (n % 10) (by omega)).2]
      have hsplit : n / 10 * 10 + n % 10 = n := by omega
      have hpow : 10 ^ ((natCharsAux fuel (n / 10)).length + (0 + 1))
          = 10 ^ (natCharsAux fuel (n / 10)).length * 10 := by
        rw [Nat.zero_add, pow_succ]
      rw [hpow]
      ring_nf
      omega

theorem parseNatAcc_stop (acc : Nat) (rest : List Char) (h : notDigitStart rest = true) :
    parseNatAcc acc rest = (acc, rest) := by
  cases rest with
  | nil => rfl
  | cons c r =>
    simp only [notDigitStart, Bool.not_eq_true'] at h
    simp [parseNatAcc, h]

theorem parseNatAcc_digits (ds : List Char) (hds : ∀ c ∈ ds, isDigitCh c = true) :
    ∀ acc rest, parseNatAcc acc (ds ++ rest) = parseNatAcc (ds.foldl digStep acc) rest := by
  induction ds with
  | nil => intro acc rest; simp
  | cons c ds ih =>
    intro acc rest
    simp only [List.cons_append, parseNatAcc, hds c (by simp), if_pos, List.foldl_cons]
    exact ih (fun x hx => hds x (by simp [hx])) _ _

theorem parseNat_natChars (n : Nat) (rest : List Char) (h : notDigitStart rest = true) :
    parseNatAcc 0 (natChars n ++ rest) = (n, rest) := by
  rw [natChars, parseNatAcc_digits _ (natCharsAux_digits _ _),
    natCharsAux_foldl (n + 1) n 0 (by omega), parseNatAcc_stop _ _ h]
  simp

theorem hexVal_zero : hexVal '0' = some 0 := by decide

theorem parseStr_rt_fuel (cs : List Char) : ∀ fuel, ∀ rest : List Char, cs.length < fuel →
    parseStrAux fuel (escChars cs ++ '"' :: rest) = some (cs, rest) := by
  induction cs with
  | nil =>
    intro fuel rest hf
    cases fuel with
    | zero => omega
    | succ f => simp [escChars, parseStrAux]
  | cons c cs ih =>
    intro fuel rest hf
    cases fuel with
    | zero => omega
    | succ f =>
    have ihf := ih f rest (by simp at hf; omega)
    show parseStrAux (f + 1) ((escapeChar c ++ escChars cs) ++ '"' :: rest) = _
    rw [List.append_assoc]
    by_cases h1 : c = '"'
    · subst h1; simp [escapeChar, parseStrAux, strConsR, ihf]
    · by_cases h2 : c = '\\'
      · subst h2; simp [escapeChar, parseStrAux, strConsR, ihf]
      · by_cases h3 : c.toNat = 8
        · have hc : Char.ofNat 8 = c := by rw [← h3, Char.ofNat_toNat]
          simp [escapeChar, h1, h2, h3, parseStrAux, strConsR, ihf]
          exact hc
        · by_cases h4 : c.toNat = 9
          · have hc : Char.ofNat 9 = c := by rw [← h4, Char.ofNat_toNat]
            simp [escapeChar, h1, h2, h3, h4, parseStrAux, strConsR, ihf]
            exact hc
          · by_cases h5 : c.toNat = 10
            · have hc : Char.ofNat 10 = c := by rw [← h5, Char.ofNat_toNat]
              simp [escapeChar, h1, h2, h3, h4, h5, parseStrAux, strConsR, ihf]
              exact hc
            · by_cases h6 : c.toNat = 12
              · have hc : Char.ofNat 12 = c := by rw [← h6, Char.ofNat_toNat]
                simp [escapeChar, h1, h2, h3, h4, h5, h6, parseStrAux, strConsR, ihf]
                exact hc
              · by_cases h7 : c.toNat = 13
                · have hc : Char.ofNat 13 = c := by rw [← h7, Char.ofNat_toNat]
                  simp [escapeChar, h1, h2, h3, h4, h5, h6, h7, parseStrAux, strConsR,
                    ihf]
                  exact hc
                · by_cases h8 : c.toNat < 32
                  · have hv1 : hexVal (hexChar (c.toNat / 16)) = some (c.toNat / 16) :=
                      hex_facts _ (by omega)
                    have hv2 : hexVal (hexChar (c.toNat % 16)) = some (c.toNat % 16) :=
                      hex_facts _ (by omega)
                    simp [escapeChar, h1, h2, h3, h4, h5, h6, h7, h8, parseStrAux,
                      strConsR, ihf, hexVal_zero, hv1, hv2]
                    refine ⟨by omega, ?_⟩
                    rw [show c.toNat / 16 * 16 + c.toNat % 16 = c.toNat from by omega,
                      Char.ofNat_toNat]
                  · simp [escapeChar, h1, h2, h3, h4, h5, h6, h7, h8, parseStrAux,
                      strConsR, ihf]

theorem escapeChar_len_pos (c : Char) : 0 < (escapeChar c).length := by
  unfold escapeChar
  split_ifs <;> simp

theorem escChars_len_ge (cs : List Char) : cs.length ≤ (escChars cs).length := by
  induction cs with
  | nil => simp [escChars]
  | cons c cs ih =>
    have := escapeChar_len_pos c
    simp only [escChars, List.length_append, List.length_cons]
    omega

/-- Round trip of a serialized string literal at the fuel the parser call
sites use. -/
theorem parseStr_rt (cs rest : List Char) :
    parseStrAux ((escChars cs ++ '"' :: rest).length + 1) (escChars cs ++ '"' :: rest)
      = some (cs, rest) := by
  apply parseStr_rt_fuel
  have := escChars_len_ge cs
  simp only [List.length_append, List.length_cons]
  omega

theorem notDigitStart_cons (c : Char) (r : List Char) :
    notDigitStart (c :: r) = !isDigitCh c := rfl

theorem jsonChars_cons (j : Json) :
    ∃ c cs, jsonChars j = c :: cs ∧ c ≠ ']' ∧ c ≠ '}' := by
  cases j with
  | null => exact ⟨'n', _, rfl, by decide, by decide⟩
  | bool b => cases b with
    | true => exact ⟨'t', _, rfl, by decide, by decide⟩
    | false => exact ⟨'f', _, rfl, by decide, by decide⟩
  | num n =>
    by_cases hn : n < 0
    · exact ⟨'-', natChars n.natAbs, by simp [jsonChars, intChars, hn], by decide, by decide⟩
    · obtain ⟨c, cs, hcs, hd⟩ := natChars_cons n.toNat
      have hdd := digit_dispatch c hd
      exact ⟨c, cs, by simp [jsonChars, intChars, hn, hcs], hdd.2.2.2.2.2.2.2.1,
        hdd.2.2.2.2.2.2.2.2.1⟩
  | str s => exact ⟨'"', _, rfl, by decide, by decide⟩
  | arr xs => exact ⟨'[', _, rfl, by decide, by decide⟩
  | obj fs => exact ⟨'{', _, rfl, by decide, by decide⟩

theorem itemsChars_cons (x : Json) (tl : JsonItems) :
    ∃ A, itemsChars (.cons x tl) = jsonChars x ++ A := by
  cases tl with
  | nil => exact ⟨[']'], rfl⟩
  | cons y tl2 => exact ⟨',' :: itemsChars (.cons y tl2), rfl⟩

theorem fieldsChars_cons (k : String) (v : Json) (tl : JsonFields) :
    ∃ A, fieldsChars (.cons k v tl) = strChars k ++ ':' :: jsonChars v ++ A := by
  cases tl with
  | nil => exact ⟨['}'], rfl⟩
  | cons k2 v2 tl2 => exact ⟨',' :: fieldsChars (.cons k2 v2 tl2), rfl⟩

/-- Master round trip: with enough fuel the parser returns exactly the
serialized value and the untouched continuation. -/
theorem parse_rt_master : ∀ fuel : Nat,
    (∀ j rest, (jsonChars j).length < fuel → notDigitStart rest = true →
      parseVal fuel (jsonChars j ++ rest) = some (j, rest))
  ∧ (∀ xs rest, xs ≠ JsonItems.nil → (itemsChars xs).length < fuel →
      notDigitStart rest = true →
      parseItems fuel (itemsChars xs ++ rest) = some (xs, rest))
  ∧ (∀ fs rest, fs ≠ JsonFields.nil → (fieldsChars fs).length < fuel →
      notDigitStart rest = true →
      parseFields fuel (fieldsChars fs ++ rest) = some (fs, rest)) := by
  intro fuel
  induction fuel with
  | zero =>
    refine ⟨?_, ?_, ?_⟩ <;> (intros _ _ h; omega)
  | succ fuel ih =>
    obtain ⟨ihv, ihi, ihf⟩ := ih
    refine ⟨?_, ?_, ?_⟩
    · intro j rest hlen hnd
      cases j with
      | null => simp [jsonChars, parseVal]
      | bool b => cases b <;> simp [jsonChars, parseVal]
      | num n =>
        by_cases hn : n < 0
        · obtain ⟨c, cs, hcs, hd⟩ := natChars_cons n.natAbs
          obtain ⟨d1, d2, d3, d4, d5, d6, d7, d8, d9, d10, d11⟩ := digit_dispatch c hd
          have hpn : parseNatAcc 0 (c :: (cs ++ rest)) = (n.natAbs, rest) := by
            rw [← List.cons_append, ← hcs]; exact parseNat_natChars _ _ hnd
          have hrepr : jsonChars (Json.num n) ++ rest = '-' :: (c :: (cs ++ rest)) := by
            simp [jsonChars, intChars, hn, hcs]
          rw [hrepr]
          have hval : -(n.natAbs : Int) = n := by omega
          have hval2 : -(|n| : Int) = n := by rw [abs_of_neg hn, neg_neg]
          simp [parseVal, hd, hpn, hval, hval2]
        · obtain ⟨c, cs, hcs, hd⟩ := natChars_cons n.toNat
          obtain ⟨d1, d2, d3, d4, d5, d6, d7, d8, d9, d10, d11⟩ := digit_dispatch c hd
          have hpn : parseNatAcc 0 (c :: (cs ++ rest)) = (n.toNat, rest) := by
            rw [← List.cons_append, ← hcs]; exact parseNat_natChars _ _ hnd
          have hrepr : jsonChars (Json.num n) ++ rest = c :: (cs ++ rest) := by
            simp [jsonChars, intChars, hn, hcs]
          rw [hrepr]
          have hval : (n.toNat : Int) = n := by omega
          simp [parseVal, d1, d2, d3, d4, d5, d6, d7, hd, hpn, hval]
      | str s =>
        have hps := parseStr_rt s.data rest
        have hrepr : jsonChars (Json.str s) ++ rest
            = '"' :: (escChars s.data ++ '"' :: rest) := by
          simp [jsonChars, strChars]
        rw [hrepr]
        set X := escChars s.data ++ '"' :: rest with hX
        simp [parseVal, hps]
      | arr xs =>
        cases xs with
        | nil => simp [jsonChars, itemsChars, parseVal]
        | cons x tl =>
          obtain ⟨c, cs, hcs, hc1, hc2⟩ := jsonChars_cons x
          obtain ⟨A, hA⟩ := itemsChars_cons x tl
          have hlen2 : (itemsChars (JsonItems.cons x tl)).length < fuel := by
            simp only [jsonChars, List.length_cons] at hlen; omega
          have hii := ihi (JsonItems.cons x tl) rest (by intro h; cases h) hlen2 hnd
          have hkey : itemsChars (JsonItems.cons x tl) ++ rest
              = c :: (cs ++ (A ++ rest)) := by
            rw [hA, hcs]; simp [List.append_assoc]
          rw [hkey] at hii
          have hrepr : jsonChars (Json.arr (JsonItems.cons x tl)) ++ rest
              = '[' :: (c :: (cs ++ (A ++ rest))) := by
            rw [← hkey]; simp [jsonChars]
          rw [hrepr]
          simp [parseVal, hc1, hii]
      | obj fs =>
        cases fs with
        | nil => simp [jsonChars, fieldsChars, parseVal]
        | cons k v tl =>
          obtain ⟨A, hA⟩ := fieldsChars_cons k v tl
          have hlen2 : (fieldsChars (JsonFields.cons k v tl)).length < fuel := by
            simp only [jsonChars, List.length_cons] at hlen; omega
          have hff := ihf (JsonFields.cons k v tl) rest (by intro h; cases h) hlen2 hnd
          have hkey : fieldsChars (JsonFields.cons k v tl) ++ rest
              = '"' :: (escChars k.data ++ '"' :: (':' :: (jsonChars v ++ (A ++ rest)))) := by
            rw [hA]; simp [strChars, List.append_assoc]
          rw [hkey] at hff
          have hrepr : jsonChars (Json.obj (JsonFields.cons k v tl)) ++ rest
              = '{' :: ('"' :: (escChars k.data ++ '"' :: (':' :: (jsonChars v
                  ++ (A ++ rest))))) := by
            rw [← hkey]; simp [jsonChars]
          rw [hrepr]
          simp [parseVal, hff]
    · intro xs rest hne hlen hnd
      cases xs with
      | nil => exact absurd rfl hne
      | cons x tl =>
        cases tl with
        | nil =>
          have hx : (jsonChars x).length < fuel := by
            simp only [itemsChars, List.length_append, List.length_cons,
              List.length_nil] at hlen
            omega
          have hv := ihv x (']' :: rest) hx (by rw [notDigitStart_cons]; decide)
          have hrepr : itemsChars (JsonItems.cons x .nil) ++ rest
              = jsonChars x ++ (']' :: rest) := by
            simp [itemsChars]
          rw [hrepr]
          simp [parseItems, hv]
        | cons y tl2 =>
          have hx : (jsonChars x).length < fuel := by
            simp only [itemsChars, List.length_append, List.length_cons] at hlen
            omega
          have hinner : (itemsChars (JsonItems.cons y tl2)).length < fuel := by
            simp only [itemsChars, List.length_append, List.length_cons] at hlen
            omega
          have hv := ihv x (',' :: (itemsChars (JsonItems.cons y tl2) ++ rest)) hx
            (by rw [notDigitStart_cons]; decide)
          have hi2 := ihi (JsonItems.cons y tl2) rest (by intro h; cases h) hinner hnd
          have hrepr : itemsChars (JsonItems.cons x (JsonItems.cons y tl2)) ++ rest
              = jsonChars x ++ (',' :: (itemsChars (JsonItems.cons y tl2) ++ rest)) := by
            simp [itemsChars]
          rw [hrepr]
          simp [parseItems, hv, hi2]
    · intro fs rest hne hlen hnd
      cases fs with
      | nil => exact absurd rfl hne
      | cons k v tl =>
        cases tl with
        | nil =>
          have hvlen : (jsonChars v).length < fuel := by
            simp only [fieldsChars, strChars, List.length_append, List.length_cons,
              List.length_nil] at hlen
            omega
          have hps := parseStr_rt k.data (':' :: (jsonChars v ++ '}' :: rest))
          have hv := ihv v ('}' :: rest) hvlen (by rw [notDigitStart_cons]; decide)
          have hrepr : fieldsChars (JsonFields.cons k v .nil) ++ rest
              = '"' :: (escChars k.data ++ '"' :: (':' :: (jsonChars v ++ '}' :: rest))) := by
            simp [fieldsChars, strChars]
          rw [hrepr]
          set X := escChars k.data ++ '"' :: (':' :: (jsonChars v ++ '}' :: rest)) with hX
          simp [parseFields, hps, hv]
        | cons k2 v2 tl2 =>
          have hvlen : (jsonChars v).length < fuel := by
            simp only [fieldsChars, strChars, List.length_append, List.length_cons] at hlen
            omega
          have hinner : (fieldsChars (JsonFields.cons k2 v2 tl2)).length < fuel := by
            simp only [fieldsChars, strChars, List.length_append, List.length_cons] at hlen
            omega
          have hps := parseStr_rt k.data
            (':' :: (jsonChars v ++ ',' :: (fieldsChars (JsonFields.cons k2 v2 tl2) ++ rest)))
          have hv := ihv v
            (',' :: (fieldsChars (JsonFields.cons k2 v2 tl2) ++ rest)) hvlen
            (by rw [notDigitStart_cons]; decide)
          have hf2 := ihf (JsonFields.cons k2 v2 tl2) rest (by intro h; cases h) hinner hnd
          have hrepr : fieldsChars (JsonFields.cons k (v) (JsonFields.cons k2 v2 tl2)) ++ rest
              = '"' :: (escChars k.data ++ '"' :: (':' :: (jsonChars v
                  ++ ',' :: (fieldsChars (JsonFields.cons k2 v2 tl2) ++ rest)))) := by
            simp [fieldsChars, strChars]
          rw [hrepr]
          set X := escChars k.data ++ '"' :: (':' :: (jsonChars v
              ++ ',' :: (fieldsChars (JsonFields.cons k2 v2 tl2) ++ rest))) with hX
          simp [parseFields, hps, hv, hf2]

/-- Parsing inverts serialization on every modelled JSON value. -/
theorem parseJson_stringify (j : Json) : parseJson (jsonStringify j) = some j := by
  have h := (parse_rt_master ((jsonChars j).length + 1)).1 j [] (by omega) rfl
  rw [List.append_nil] at h
  simp only [parseJson, jsonStringify]
  rw [h]

/-! ## UTF-8 transport

The encoder runs `btoa(unescape(encodeURIComponent(jsonString)))`, which is
base64 over the UTF-8 bytes of the string, and the decoder runs
`decodeURIComponent(escape(atob(token)))`, the inverse; a failure of either
step is caught and classified as corrupted. -/

/-- Valid scalar values are below the unicode ceiling. -/
theorem char_toNat_lt (c : Char) : c.toNat < 1114112 := by
  have he : c.toNat = c.val.toNat := rfl
  rcases c.valid with h | h <;> omega

/-- Valid scalar values avoid the surrogate range. -/
theorem char_toNat_surr (c : Char) : c.toNat < 55296 ∨ 57344 ≤ c.toNat := by
  have he : c.toNat = c.val.toNat := rfl
  rcases c.valid with h | h
  · exact Or.inl (by omega)
  · exact Or.inr (by omega)

/-- UTF-8 bytes of one unicode scalar value. -/
def utf8Char (c : Char) : List Nat :=
  if c.toNat < 128 then [c.toNat]
  else if c.toNat < 2048 then [192 + c.toNat / 64, 128 + c.toNat % 64]
  else if c.toNat < 65536 then
    [224 + c.toNat / 4096, 128 + c.toNat / 64 % 64, 128 + c.toNat % 64]
  else [240 + c.toNat / 262144, 128 + c.toNat / 4096 % 64, 128 + c.toNat / 64 % 64,
    128 + c.toNat % 64]

/-- UTF-8 bytes of a character sequence. -/
def utf8Chars : List Char → List Nat
  | [] => []
  | c :: cs => utf8Char c ++ utf8Chars cs

/-- Decode UTF-8 bytes back to characters; `none` on malformed input.  The
fuel makes the recursion structural; the byte length suffices. -/
def utf8Decode : Nat → List Nat → Option (List Char)
  | _, [] => some []
  | 0, _ :: _ => none
  | fuel + 1, b :: rest =>
    if b < 128 then
      match utf8Decode fuel rest with
      | some cs => some (Char.ofNat b :: cs)
      | none => none
    else if b < 192 then none
    else if b < 224 then
      match rest with
      | b1 :: r2 =>
        if 128 ≤ b1 && b1 < 192 then
          let n := (b - 192) * 64 + (b1 - 128)
          if 128 ≤ n then
            match utf8Decode fuel r2 with
            | some cs => some (Char.ofNat n :: cs)
            | none => none
          else none
        else none
      | _ => none
    else if b < 240 then
      match rest with
      | b1 :: b2 :: r2 =>
        if (128 ≤ b1 && b1 < 192) && (128 ≤ b2 && b2 < 192) then
          let n := (b - 224) * 4096 + (b1 - 128) * 64 + (b2 - 128)
          if 2048 ≤ n && (n < 55296 || 57344 ≤ n) then
            match utf8Decode fuel r2 with
            | some cs => some (Char.ofNat n :: cs)
            | none => none
          else none
        else none
      | _ => none
    else if b < 248 then
      match rest with
      | b1 :: b2 :: b3 :: r2 =>
        if ((128 ≤ b1 && b1 < 192) && (128 ≤ b2 && b2 < 192)) && (128 ≤ b3 && b3 < 192) then
          let n := (b - 240) * 262144 + (b1 - 128) * 4096 + (b2 - 128) * 64 + (b3 - 128)
          if 65536 ≤ n && n < 1114112 then
            match utf8Decode fuel r2 with
            | some cs => some (Char.ofNat n :: cs)
            | none => none
          else none
        else none
      | _ => none
    else none

theorem utf8Char_len_pos (c : Char) : 0 < (utf8Char c).length := by
  unfold utf8Char
  split_ifs <;> simp

theorem utf8Chars_len_ge (cs : List Char) : cs.length ≤ (utf8Chars cs).length := by
  induction cs with
  | nil => simp [utf8Chars]
  | cons c cs ih =>
    have := utf8Char_len_pos c
    simp only [utf8Chars, List.length_append, List.length_cons]
    omega

theorem utf8_rt_fuel (cs : List Char) : ∀ fuel, cs.length < fuel →
    utf8Decode fuel (utf8Chars cs) = some cs := by
  induction cs with
  | nil =>
    intro fuel _
    cases fuel <;> rfl
  | cons c cs ih =>
    intro fuel hf
    cases fuel with
    | zero => omega
    | succ f =>
    have ihf := ih f (by simp at hf; omega)
    have hval : c.toNat < 1114112 := char_toNat_lt c
    have hsurr : c.toNat < 55296 ∨ 57344 ≤ c.toNat := char_toNat_surr c
    show utf8Decode (f + 1) (utf8Char c ++ utf8Chars cs) = some (c :: cs)
    by_cases h1 : c.toNat < 128
    · have hb : utf8Char c = [c.toNat] := by simp [utf8Char, h1]
      simp [hb, utf8Decode, h1, ihf, Char.ofNat_toNat]
    · by_cases h2 : c.toNat < 2048
      · have hb : utf8Char c = [192 + c.toNat / 64, 128 + c.toNat % 64] := by
          simp [utf8Char, h1, h2]
        have hn : (192 + c.toNat / 64 - 192) * 64 + (128 + c.toNat % 64 - 128)
            = c.toNat := by omega
        simp only [hb, List.cons_append, List.nil_append, utf8Decode]
        rw [if_neg (by omega), if_neg (by omega), if_pos (by omega)]
        simp only [Bool.and_eq_true, decide_eq_true_eq]
        rw [if_pos (by constructor <;> omega), hn, if_pos (by omega), ihf,
          Char.ofNat_toNat]
      · by_cases h3 : c.toNat < 65536
        · have hb : utf8Char c
              = [224 + c.toNat / 4096, 128 + c.toNat / 64 % 64, 128 + c.toNat % 64] := by
            simp [utf8Char, h1, h2, h3]
          have hn : (224 + c.toNat / 4096 - 224) * 4096 + (128 + c.toNat / 64 % 64 - 128) * 64
              + (128 + c.toNat % 64 - 128) = c.toNat := by omega
          simp only [hb, List.cons_append, List.nil_append, utf8Decode]
          rw [if_neg (by omega), if_neg (by omega), if_neg (by omega), if_pos (by omega)]
          simp only [Bool.and_eq_true, decide_eq_true_eq]
          rw [if_pos (by refine ⟨⟨?_, ?_⟩, ?_, ?_⟩ <;> omega), hn,
            if_pos (by simp only [Bool.or_eq_true, decide_eq_true_eq]; exact ⟨by omega, by rcases hsurr with h | h; exact Or.inl h; exact Or.inr h⟩), ihf, Char.ofNat_toNat]
        · have hb : utf8Char c = [240 + c.toNat / 262144, 128 + c.toNat / 4096 % 64,
              128 + c.toNat / 64 % 64, 128 + c.toNat % 64] := by
            simp [utf8Char, h1, h2, h3]
          have hn : (240 + c.toNat / 262144 - 240) * 262144
              + (128 + c.toNat / 4096 % 64 - 128) * 4096
              + (128 + c.toNat / 64 % 64 - 128) * 64 + (128 + c.toNat % 64 - 128)
              = c.toNat := by omega
          simp only [hb, List.cons_append, List.nil_append, utf8Decode]
          rw [if_neg (by omega), if_neg (by omega), if_neg (by omega), if_neg (by omega),
            if_pos (by omega)]
          simp only [Bool.and_eq_true, decide_eq_true_eq]
          rw [if_pos (by refine ⟨⟨⟨?_, ?_⟩, ?_, ?_⟩, ?_, ?_⟩ <;> omega), hn,
            if_pos (by constructor <;> omega), ihf, Char.ofNat_toNat]

/-- UTF-8 decoding inverts encoding at the fuel the codec uses. -/
theorem utf8_rt (cs : List Char) :
    utf8Decode ((utf8Chars cs).length + 1) (utf8Chars cs) = some cs :=
  utf8_rt_fuel cs _ (by have := utf8Chars_len_ge cs; omega)

theorem utf8Char_bytes_lt (c : Char) : ∀ b ∈ utf8Char c, b < 256 := by
  have hval : c.toNat < 1114112 := char_toNat_lt c
  unfold utf8Char
  split_ifs with h1 h2 h3 <;> (intro b hb; simp at hb) <;> omega

theorem utf8Chars_bytes_lt (cs : List Char) : ∀ b ∈ utf8Chars cs, b < 256 := by
  induction cs with
  | nil => simp [utf8Chars]
  | cons c cs ih =>
    intro b hb
    simp only [utf8Chars, List.mem_append] at hb
    rcases hb with hb | hb
    · exact utf8Char_bytes_lt c b hb
    · exact ih b hb

/-! ## Base64 transport, the JS `btoa` / `atob`

Standard alphabet with padding; `atob` rejects a malformed token, which the
codec catches as corrupted. -/

/-- Character of one 6-bit group. -/
def b64Char (n : Nat) : Char :=
  if n < 26 then Char.ofNat (65 + n)
  else if n < 52 then Char.ofNat (97 + (n - 26))
  else if n < 62 then Char.ofNat (48 + (n - 52))
  else if n = 62 then '+'
  else '/'

/-- Value of one base64 character. -/
def b64Val (c : Char) : Option Nat :=
  if 65 ≤ c.toNat && c.toNat ≤ 90 then some (c.toNat - 65)
  else if 97 ≤ c.toNat && c.toNat ≤ 122 then some (c.toNat - 97 + 26)
  else if 48 ≤ c.toNat && c.toNat ≤ 57 then some (c.toNat - 48 + 52)
  else if c = '+' then some 62
  else if c = '/' then some 63
  else none

theorem b64Val_b64Char : ∀ n, n < 64 → b64Val (b64Char n) = some n := by decide

theorem b64Char_ne_eq : ∀ n, n < 64 → b64Char n ≠ '=' := by decide

/-- Base64 of a byte sequence, three bytes to four characters with padding,
as `btoa` emits. -/
def b64Encode : List Nat → List Char
  | [] => []
  | [b0] => [b64Char (b0 / 4), b64Char (b0 % 4 * 16), '=', '=']
  | [b0, b1] => [b64Char (b0 / 4), b64Char (b0 % 4 * 16 + b1 / 16),
      b64Char (b1 % 16 * 4), '=']
  | b0 :: b1 :: b2 :: rest =>
      b64Char (b0 / 4) :: b64Char (b0 % 4 * 16 + b1 / 16)
        :: b64Char (b1 % 16 * 4 + b2 / 64) :: b64Char (b2 % 64) :: b64Encode rest

/-- Inverse of `b64Encode`; `none` on malformed input, as `atob` throws. -/
def b64Decode : List Char → Option (List Nat)
  | [] => some []
  | a :: b :: c :: d :: rest =>
    match b64Val a, b64Val b with
    | some va, some vb =>
      if c = '=' then
        if d = '=' ∧ rest = [] then some [va * 4 + vb / 16] else none
      else
        match b64Val c with
        | some vc =>
          if d = '=' then
            if rest = [] then some [va * 4 + vb / 16, vb % 16 * 16 + vc / 4] else none
          else
            match b64Val d, b64Decode rest with
            | some vd, some tail =>
              some ((va * 4 + vb / 16) :: (vb % 16 * 16 + vc / 4) :: (vc % 4 * 64 + vd) :: tail)
            | _, _ => none
        | none => none
    | _, _ => none
  | _ => none

theorem b64_rt : ∀ bs : List Nat, (∀ b ∈ bs, b < 256) →
    b64Decode (b64Encode bs) = some bs
  | [], _ => rfl
  | [b0], h => by
    have hb0 : b0 < 256 := h b0 (by simp)
    have h1 : b64Val (b64Char (b0 / 4)) = some (b0 / 4) := b64Val_b64Char _ (by omega)
    have h2 : b64Val (b64Char (b0 % 4 * 16)) = some (b0 % 4 * 16) :=
      b64Val_b64Char _ (by omega)
    simp [b64Encode, b64Decode, h1, h2]
    omega
  | [b0, b1], h => by
    have hb0 : b0 < 256 := h b0 (by simp)
    have hb1 : b1 < 256 := h b1 (by simp)
    have h1 : b64Val (b64Char (b0 / 4)) = some (b0 / 4) := b64Val_b64Char _ (by omega)
    have h2 : b64Val (b64Char (b0 % 4 * 16 + b1 / 16)) = some (b0 % 4 * 16 + b1 / 16) :=
      b64Val_b64Char _ (by omega)
    have h3 : b64Val (b64Char (b1 % 16 * 4)) = some (b1 % 16 * 4) :=
      b64Val_b64Char _ (by omega)
    have hne : b64Char (b1 % 16 * 4) ≠ '=' := b64Char_ne_eq _ (by omega)
    simp [b64Encode, b64Decode, h1, h2, h3, hne]
    constructor <;> omega
  | b0 :: b1 :: b2 :: c4 :: rest, h => by
    have hb0 : b0 < 256 := h b0 (by simp)
    have hb1 : b1 < 256 := h b1 (by simp)
    have hb2 : b2 < 256 := h b2 (by simp)
    have h1 : b64Val (b64Char (b0 / 4)) = some (b0 / 4) := b64Val_b64Char _ (by omega)
    have h2 : b64Val (b64Char (b0 % 4 * 16 + b1 / 16)) = some (b0 % 4 * 16 + b1 / 16) :=
      b64Val_b64Char _ (by omega)
    have h3 : b64Val (b64Char (b1 % 16 * 4 + b2 / 64)) = some (b1 % 16 * 4 + b2 / 64) :=
      b64Val_b64Char _ (by omega)
    have h4 : b64Val (b64Char (b2 % 64)) = some (b2 % 64) := b64Val_b64Char _ (by omega)
    have hne3 : b64Char (b1 % 16 * 4 + b2 / 64) ≠ '=' := b64Char_ne_eq _ (by omega)
    have hne4 : b64Char (b2 % 64) ≠ '=' := b64Char_ne_eq _ (by omega)
    have ih := b64_rt (c4 :: rest) (fun b hb => h b (by simp at hb ⊢; tauto))
    simp [b64Encode, b64Decode, h1, h2, h3, h4, hne3, hne4, ih]
    refine ⟨by omega, by omega, by omega⟩
  | [b0, b1, b2], h => by
    have hb0 : b0 < 256 := h b0 (by simp)
    have hb1 : b1 < 256 := h b1 (by simp)
    have hb2 : b2 < 256 := h b2 (by simp)
    have h1 : b64Val (b64Char (b0 / 4)) = some (b0 / 4) := b64Val_b64Char _ (by omega)
    have h2 : b64Val (b64Char (b0 % 4 * 16 + b1 / 16)) = some (b0 % 4 * 16 + b1 / 16) :=
      b64Val_b64Char _ (by omega)
    have h3 : b64Val (b64Char (b1 % 16 * 4 + b2 / 64)) = some (b1 % 16 * 4 + b2 / 64) :=
      b64Val_b64Char _ (by omega)
    have h4 : b64Val (b64Char (b2 % 64)) = some (b2 % 64) := b64Val_b64Char _ (by omega)
    have hne3 : b64Char (b1 % 16 * 4 + b2 / 64) ≠ '=' := b64Char_ne_eq _ (by omega)
    have hne4 : b64Char (b2 % 64) ≠ '=' := b64Char_ne_eq _ (by omega)
    simp [b64Encode, b64Decode, h1, h2, h3, h4, hne3, hne4]
    refine ⟨by omega, by omega, by omega⟩

/-! ## MD5, the `CryptoJS.MD5(...).toString()` checksum

Reference implementation over natural numbers reduced modulo `2 ^ 32`,
operating on the UTF-8 bytes of the input string and printing the digest
as 32 lowercase hexadecimal characters, exactly as the CryptoJS call in
the codec.  All recursion is fuel-structural so concrete checksums can be
evaluated by the kernel. -/

/-- Per-round sine-derived constants. -/
def md5K : List Nat :=
  [0xd76aa478, 0xe8c7b756, 0x242070db, 0xc1bdceee,
   0xf57c0faf, 0x4787c62a, 0xa8304613, 0xfd469501,
   0x698098d8, 0x8b44f7af, 0xffff5bb1, 0x895cd7be,
   0x6b901122, 0xfd987193, 0xa679438e, 0x49b40821,
   0xf61e2562, 0xc040b340, 0x265e5a51, 0xe9b6c7aa,
   0xd62f105d, 0x02441453, 0xd8a1e681, 0xe7d3fbc8,
   0x21e1cde6, 0xc33707d6, 0xf4d50d87, 0x455a14ed,
   0xa9e3e905, 0xfcefa3f8, 0x676f02d9, 0x8d2a4c8a,
   0xfffa3942, 0x8771f681, 0x6d9d6122, 0xfde5380c,
   0xa4beea44, 0x4bdecfa9, 0xf6bb4b60, 0xbebfbc70,
   0x289b7ec6, 0xeaa127fa, 0xd4ef3085, 0x04881d05,
   0xd9d4d039, 0xe6db99e5, 0x1fa27cf8, 0xc4ac5665,
   0xf4292244, 0x432aff97, 0xab9423a7, 0xfc93a039,
   0x655b59c3, 0x8f0ccc92, 0xffeff47d, 0x85845dd1,
   0x6fa87e4f, 0xfe2ce6e0, 0xa3014314, 0x4e0811a1,
   0xf7537e82, 0xbd3af235, 0x2ad7d2bb, 0xeb86d391]

/-- Per-round left-rotation amounts. -/
def md5S : List Nat :=
  [7, 12, 17, 22, 7, 12, 17, 22, 7, 12, 17, 22, 7, 12, 17, 22,
   5, 9, 14, 20, 5, 9, 14, 20, 5, 9, 14, 20, 5, 9, 14, 20,
   4, 11, 16, 23, 4, 11, 16, 23, 4, 11, 16, 23, 4, 11, 16, 23,
   6, 10, 15, 21, 6, 10, 15, 21, 6, 10, 15, 21, 6, 10, 15, 21]

/-- Bitwise complement within 32 bits. -/
def not32 (x : Nat) : Nat := 4294967295 ^^^ x

/-- Left rotation of a 32-bit word. -/
def rotl32 (x s : Nat) : Nat := ((x <<< s) % 4294967296) ||| (x >>> (32 - s))

/-- Little-endian 32-bit word `g` of a 64-byte block. -/
def blockWord (block : List Nat) (g : Nat) : Nat :=
  block.getD (4 * g) 0 + 256 * block.getD (4 * g + 1) 0
    + 65536 * block.getD (4 * g + 2) 0 + 16777216 * block.getD (4 * g + 3) 0

/-- Force a natural number to its literal before passing it on; keeps the
kernel evaluation of the hash linear in the number of steps. -/
def withLit (x : Nat) (k : Nat → α) : α :=
  match x with
  | 0 => k 0
  | n + 1 => k (n + 1)

/-- The sixteen message words of a block, each forced to a literal. -/
def word16 (block : List Nat) (k : List Nat → α) : α :=
  withLit (blockWord block 0) fun w0 => withLit (blockWord block 1) fun w1 =>
  withLit (blockWord block 2) fun w2 => withLit (blockWord block 3) fun w3 =>
  withLit (blockWord block 4) fun w4 => withLit (blockWord block 5) fun w5 =>
  withLit (blockWord block 6) fun w6 => withLit (blockWord block 7) fun w7 =>
  withLit (blockWord block 8) fun w8 => withLit (blockWord block 9) fun w9 =>
  withLit (blockWord block 10) fun w10 => withLit (blockWord block 11) fun w11 =>
  withLit (blockWord block 12) fun w12 => withLit (blockWord block 13) fun w13 =>
  withLit (blockWord block 14) fun w14 => withLit (blockWord block 15) fun w15 =>
  k [w0, w1, w2, w3, w4, w5, w6, w7, w8, w9, w10, w11, w12, w13, w14, w15]

/-- The 64 MD5 steps, counting the remaining steps down; the current step
index is `64 - fuel`. -/
def md5Steps (ws : List Nat) : Nat → Nat × Nat × Nat × Nat → Nat × Nat × Nat × Nat
  | 0, st => st
  | fuel + 1, (a, b, c, d) =>
    withLit a fun a => withLit b fun b => withLit c fun c => withLit d fun d =>
      let i := 64 - (fuel + 1)
      let f :=
        if i < 16 then (b &&& c) ||| (not32 b &&& d)
        else if i < 32 then (d &&& b) ||| (not32 d &&& c)
        else if i < 48 then b ^^^ c ^^^ d
        else c ^^^ (b ||| not32 d)
      let g :=
        if i < 16 then i
        else if i < 32 then (5 * i + 1) % 16
        else if i < 48 then (3 * i + 5) % 16
        else 7 * i % 16
      let tmp := (f + a + md5K.getD i 0 + ws.getD g 0) % 4294967296
      md5Steps ws fuel (d, (b + rotl32 tmp (md5S.getD i 0)) % 4294967296, b, c)

/-- Compress one 64-byte block into the running state. -/
def md5Block (st : Nat × Nat × Nat × Nat) (block : List Nat) : Nat × Nat × Nat × Nat :=
  word16 block fun ws =>
    match st, md5Steps ws 64 st with
    | (a0, b0, c0, d0), (a, b, c, d) =>
      ((a0 + a) % 4294967296, (b0 + b) % 4294967296,
       (c0 + c) % 4294967296, (d0 + d) % 4294967296)

/-- Fold the blocks of the padded message; the first argument counts the
remaining 64-byte blocks. -/
def md5Blocks : Nat → List Nat → Nat × Nat × Nat × Nat → Nat × Nat × Nat × Nat
  | 0, _, st => st
  | n + 1, bytes, st => md5Blocks n (bytes.drop 64) (md5Block st (bytes.take 64))

/-- Little-endian bytes of a 64-bit quantity. -/
def le8 (n : Nat) : List Nat :=
  [n % 256, n / 256 % 256, n / 65536 % 256, n / 16777216 % 256,
   n / 4294967296 % 256, n / 1099511627776 % 256,
   n / 281474976710656 % 256, n / 72057594037927936 % 256]

/-- Little-endian bytes of a 32-bit word. -/
def le4 (n : Nat) : List Nat := [n % 256, n / 256 % 256, n / 65536 % 256, n / 16777216 % 256]

/-- MD5 padding: a 1 bit, zeros to 56 mod 64, then the bit length. -/
def md5Pad (msg : List Nat) : List Nat :=
  msg ++ 128 :: List.replicate ((56 + 64 - (msg.length + 1) % 64) % 64) 0
    ++ le8 (msg.length * 8)

/-- MD5 digest bytes of a byte sequence. -/
def md5Bytes (msg : List Nat) : List Nat :=
  let padded := md5Pad msg
  match md5Blocks (padded.length / 64) padded
      (0x67452301, 0xefcdab89, 0x98badcfe, 0x10325476) with
  | (a, b, c, d) => le4 a ++ le4 b ++ le4 c ++ le4 d

/-- Lowercase hexadecimal characters of a byte sequence. -/
def hexOfBytes : List Nat → List Char
  | [] => []
  | b :: rest => hexChar (b / 16) :: hexChar (b % 16) :: hexOfBytes rest

/-- The JS `CryptoJS.MD5(s).toString()`: hex digest of the UTF-8 bytes. -/
def md5Hex (s : String) : String := ⟨hexOfBytes (md5Bytes (utf8Chars s.data))⟩

example : md5Hex "" = "d41d8cd98f00b204e9800998ecf8427e" := by decide

example : md5Hex "abc" = "900150983cd24fb0d6963f7d28e17f72" := by decide

example : md5Hex "The quick brown fox jumps over the lazy dog"
    = "9e107d9d372bb6826bd81d3542a419d6" := by decide

/-! ## Recipe model, from `src/types/Recipe.ts`

Only the fields the sharing and backup code reads.  Optional fields are
`Option`; JS `undefined` is `none`.  Numeric fields carry integers, which
covers all payloads the app produces. -/

structure Recipe where
  id : String
  title : String
  description : Option String := none
  ingredients : Option String := none
  instructions : Option String := none
  source_url : Option String := none
  servings : Option Int := none
  prep_time : Option Int := none
  cook_time : Option Int := none
  difficulty : Option String := none
  cuisine : Option String := none
  tags : Option (List String) := none
  rating : Option Int := none
  is_favorite : Bool := false
  notes : Option String := none
  deriving DecidableEq, Repr

/-- The `ShareableRecipe` interface of `src/types/Sharing.ts`. -/
structure ShareableRecipe where
  title : String
  description : Option String := none
  ingredients : Option String := none
  instructions : Option String := none
  servings : Option Int := none
  prep_time : Option Int := none
  cook_time : Option Int := none
  difficulty : Option String := none
  cuisine : Option String := none
  tags : Option (List String) := none
  rating : Option Int := none
  notes : Option String := none
  version : Int := 3
  checksum : String := ""
  deriving DecidableEq, Repr

/-- The `ImportValidationResult` of `src/types/Sharing.ts`; fields the
source leaves out of a result literal are `none`.  `shareVersion` is kept
as the raw JS value the decoder extracted. -/
structure ImportValidationResult where
  isValid : Bool
  error : Option String := none
  errorMessage : Option String := none
  recipe : Option Json := none
  shareVersion : Option Json := none
  currentVersion : Option Int := none
  deriving DecidableEq, Repr

/-! ## Share payload construction, from `src/utils/sharing.ts`

`Date.now()` is passed in as the `ts` argument; the stored recipe list and
the current schema version stand for the awaited `getAllRecipes()` and
`getMigrationInfo()` collaborator calls. -/

/-- JS `x || null` on an optional string: falsy (absent or empty) becomes
`null`. -/
def jsOrNullStr : Option String → Json
  | some s => if s = "" then .null else .str s
  | none => .null

/-- JS truthiness of an optional string. -/
def truthyOptStr : Option String → Bool
  | some s => s != ""
  | none => false

/-- Keep a field only when the JS value is defined, as `JSON.stringify`
drops `undefined` properties. -/
def optField (k : String) (v : Option Json) (tl : JsonFields) : JsonFields :=
  match v with
  | some j => .cons k j tl
  | none => tl

/-- JSON array of strings. -/
def jsonOfStrList : List String → JsonItems
  | [] => .nil
  | s :: tl => .cons (.str s) (jsonOfStrList tl)

/-- The recipe sub-record built by `createShareData` (sharing.ts:33-46):
v1 required fields, the v2 fields mapped from `difficulty` and
`source_url`, and the v3 `nutrition` placeholder. -/
def shareDataRecipe (r : Recipe) : Json :=
  .obj (.cons "id" (.str r.id) (.cons "title" (.str r.title)
    (.cons "ingredients" (.str (r.ingredients.getD ""))
      (.cons "instructions" (.str (r.instructions.getD ""))
        (.cons "cooking_method" (jsOrNullStr r.difficulty)
          (.cons "source_type" (.str (if truthyOptStr r.source_url then "url" else "manual"))
            (.cons "nutrition" .null .nil)))))))

/-- The versioned share payload of `createShareData` (sharing.ts:28-50),
with `v = CURRENT_VERSION = 3` and `app = APP_VERSION`. -/
def createShareData (r : Recipe) (ts : Int) : Json :=
  .obj (.cons "v" (.num 3) (.cons "ts" (.num ts) (.cons "app" (.str "1.3.0")
    (.cons "recipe" (shareDataRecipe r) .nil))))

/-- Field list of the legacy shareable record with a given checksum value
(sharing.ts:54-69); key order is construction order and `undefined`
fields are dropped. -/
def shareableFields (r : Recipe) (checksum : String) : JsonFields :=
  .cons "title" (.str r.title) <|
  optField "description" (r.description.map .str) <|
  optField "ingredients" (r.ingredients.map .str) <|
  optField "instructions" (r.instructions.map .str) <|
  optField "servings" (r.servings.map .num) <|
  optField "prep_time" (r.prep_time.map .num) <|
  optField "cook_time" (r.cook_time.map .num) <|
  optField "difficulty" (r.difficulty.map .str) <|
  optField "cuisine" (r.cuisine.map .str) <|
  optField "tags" (r.tags.map (fun l => Json.arr (jsonOfStrList l))) <|
  optField "rating" (r.rating.map .num) <|
  optField "notes" (r.notes.map .str) <|
  .cons "version" (.num 3) (.cons "checksum" (.str checksum) .nil)

/-- `createShareableRecipe` (sharing.ts:53-76): the checksum is the MD5 of
the JSON serialization of the record with `checksum` still the empty
string, then written into the record. -/
def createShareableRecipe (r : Recipe) : Json :=
  .obj (shareableFields r (md5Hex (jsonStringify (.obj (shareableFields r "")))))

/-- The legacy deep link payload of `generateLegacyDeepLink`
(sharing.ts:114-117). -/
def legacyPayload (r : Recipe) (ts : Int) : Json :=
  .obj (.cons "recipe" (createShareableRecipe r) (.cons "timestamp" (.num ts) .nil))

/-- The complete deep link text for a payload: scheme marker plus base64
of the UTF-8 bytes of the JSON, as
`btoa(unescape(encodeURIComponent(JSON.stringify(payload))))`. -/
def mkDeepLink (payload : Json) : String :=
  ⟨"myrecipebox://import/".data ++ b64Encode (utf8Chars (jsonChars payload))⟩

/-- `generateDeepLink` (sharing.ts:79-107): build the versioned link and
throw when it exceeds `MAX_LINK_SIZE = 2048`. -/
def generateDeepLink (r : Recipe) (ts : Int) : Except String String :=
  let deepLink := mkDeepLink (createShareData r ts)
  if deepLink.length > 2048 then .error "Recipe data too large for sharing"
  else .ok deepLink

/-- `generateLegacyDeepLink` (sharing.ts:110-133). -/
def generateLegacyDeepLink (r : Recipe) (ts : Int) : Except String String :=
  let deepLink := mkDeepLink (legacyPayload r ts)
  if deepLink.length > 2048 then .error "Recipe data too large for sharing"
  else .ok deepLink

/-! ## Decode and validate, `parseDeepLink` (sharing.ts:208-373) -/

/-- Strict JS equality between a stored string field and a decoded value. -/
def jsEqS (s : String) : Option Json → Bool
  | some (.str t) => s == t
  | _ => false

/-- Strict JS equality between an optional stored string and a decoded
value; `undefined === undefined` holds. -/
def jsEqOS : Option String → Option Json → Bool
  | none, none => true
  | some s, some (.str t) => s == t
  | _, _ => false

/-- The duplicate predicate of sharing.ts:343-347: exact match on title,
ingredients and instructions. -/
def matchesStored (rec : Json) (e : Recipe) : Bool :=
  jsEqS e.title (rec.field "title") && jsEqOS e.ingredients (rec.field "ingredients")
    && jsEqOS e.instructions (rec.field "instructions")

/-- The JS comparison `shareVersion > currentVersion`.  The version is
whatever value the payload carried; numbers, `null` and booleans compare
by numeric coercion, and the remaining coercions (numeric strings,
one-element arrays) are not reproduced — every payload the claims
exercise carries a numeric version. -/
def jsVersionGt (v : Json) (cv : Int) : Bool :=
  match v with
  | .num n => n > cv
  | .null => 0 > cv
  | .bool b => (if b then (1 : Int) else 0) > cv
  | _ => false

def corruptedResult : ImportValidationResult :=
  ⟨false, some "corrupted", some "Recipe data is corrupted", none, none, none⟩

def invalidResult : ImportValidationResult :=
  ⟨false, some "invalid", some "Cannot read this recipe", none, none, none⟩

/-- The shared tail of `parseDeepLink` (sharing.ts:329-363): version
check against the migration info, duplicate check against the store, then
success. -/
def finishImport (stored : List Recipe) (cv : Int) (rec shareVersion : Json) :
    ImportValidationResult :=
  if jsVersionGt shareVersion cv then
    ⟨false, some "version_mismatch", some "Update app to import this recipe",
      none, none, none⟩
  else if stored.any (matchesStored rec) then
    ⟨false, some "duplicate", some "Already have this recipe", none, none, none⟩
  else
    ⟨true, none, none, some rec, some shareVersion, some cv⟩

/-- The versioned branch of `parseDeepLink` (sharing.ts:281-293). -/
def versionedOutcome (stored : List Recipe) (cv : Int) (parsed : Json) :
    ImportValidationResult :=
  let rec0 := (parsed.field "recipe").getD .null
  if !jsTruthy (rec0.field "id") || !jsTruthy (rec0.field "title") then invalidResult
  else finishImport stored cv rec0 ((parsed.field "v").getD .null)

/-- The legacy branch of `parseDeepLink` (sharing.ts:294-320): required
fields, then the checksum recomputed over the record with the `checksum`
key deleted must equal the embedded one. -/
def legacyOutcome (stored : List Recipe) (cv : Int) (parsed : Json) :
    ImportValidationResult :=
  let rec0 := (parsed.field "recipe").getD .null
  let shareVersion := if jsTruthy (rec0.field "version")
    then (rec0.field "version").getD .null else .num 1
  if !jsTruthy (rec0.field "title") || !jsTruthy (rec0.field "checksum") then invalidResult
  else
    match rec0 with
    | .obj fs =>
      let calculated := md5Hex (jsonStringify (.obj (fs.erase "checksum")))
      if !jsEqS calculated (rec0.field "checksum") then corruptedResult
      else finishImport stored cv rec0 shareVersion
    | _ => invalidResult

/-- Shape dispatch of `parseDeepLink` (sharing.ts:257-276): a truthy `v`
with a recipe is the versioned format, a recipe with a timestamp is the
legacy format, and anything else throws inside the parse block and is
reported corrupted. -/
def importOutcome (stored : List Recipe) (cv : Int) (parsed : Json) :
    ImportValidationResult :=
  if jsTruthy (parsed.field "v") && jsTruthy (parsed.field "recipe") then
    versionedOutcome stored cv parsed
  else if jsTruthy (parsed.field "recipe") && jsTruthy (parsed.field "timestamp") then
    legacyOutcome stored cv parsed
  else corruptedResult

/-- `parseDeepLink` (sharing.ts:208-373).  The stored recipes and the
current schema version stand for the awaited collaborator calls; the
transport failures (bad base64, bad UTF-8, bad JSON) all surface as the
corrupted outcome exactly as the try/catch does. -/
def parseDeepLink (stored : List Recipe) (currentVersion : Int) (deepLink : String) :
    ImportValidationResult :=
  if !("myrecipebox://import/".data.isPrefixOf deepLink.data) then
    ⟨false, some "invalid", some "Invalid deep link format", none, none, none⟩
  else if deepLink.length > 2048 then
    ⟨false, some "size_limit", some "Link data exceeds size limit", none, none, none⟩
  else
    match b64Decode (deepLink.data.drop "myrecipebox://import/".length) with
    | none => corruptedResult
    | some bytes =>
      match utf8Decode (bytes.length + 1) bytes with
      | none => corruptedResult
      | some chars =>
        match parseJson ⟨chars⟩ with
        | none => corruptedResult
        | some parsed => importOutcome stored currentVersion parsed

example : ("myrecipebox://import/" : String).length = 21 := by decide

/-! ## Input sanitizing, `sanitizeRecipeData` (sharing.ts:390-410) -/

/-- The ECMA whitespace and line terminator set removed by `trim`. -/
def jsWhitespace (c : Char) : Bool :=
  c.toNat = 32 || c.toNat = 9 || c.toNat = 10 || c.toNat = 11 || c.toNat = 12 ||
  c.toNat = 13 || c.toNat = 160 || c.toNat = 5760 ||
  (8192 ≤ c.toNat && c.toNat ≤ 8202) || c.toNat = 8232 || c.toNat = 8233 ||
  c.toNat = 8239 || c.toNat = 8287 || c.toNat = 12288 || c.toNat = 65279

/-- The JS `String.prototype.trim`. -/
def jsTrim (cs : List Char) : List Char :=
  ((cs.dropWhile jsWhitespace).reverse.dropWhile jsWhitespace).reverse

/-- The inner `sanitize` helper on a nonempty string: strip angle
brackets, cut to 5000 characters, trim. -/
def sanitizeStr (s : String) : String :=
  ⟨jsTrim ((s.data.filter (fun c => !(c = '<' || c = '>'))).take 5000)⟩

/-- The inner `sanitize` on an optional string: falsy input is returned
unchanged. -/
def sanitizeOpt : Option String → Option String
  | none => none
  | some s => if s = "" then some s else some (sanitizeStr s)

/-- `sanitizeRecipeData` (sharing.ts:390-410). -/
def sanitizeRecipeData (r : ShareableRecipe) : ShareableRecipe :=
  { r with
    title := (fun t => if t = "" then "Untitled Recipe" else t)
      (if r.title = "" then "" else sanitizeStr r.title),
    description := sanitizeOpt r.description,
    ingredients := sanitizeOpt r.ingredients,
    instructions := sanitizeOpt r.instructions,
    notes := sanitizeOpt r.notes,
    cuisine := sanitizeOpt r.cuisine,
    tags := some (((r.tags.getD []).map
        (fun tg => if tg = "" then "" else sanitizeStr tg)).filter (fun tg => tg ≠ "")) }

/-! ## Backup versioning, from `src/utils/backupVersioning.ts` -/

/-- Result record of `checkBackupCompatibility`. -/
structure CompatResult where
  compatible : Bool
  requiresUpdate : Bool
  dataLoss : Bool
  message : String
  deriving DecidableEq, Repr

/-- `checkBackupCompatibility` (backupVersioning.ts:20-63) on the backup
schema version and the current schema version read from the migration
info. -/
def checkBackupCompatibility (backupVersion currentVersion : Int) : CompatResult :=
  if backupVersion = currentVersion then
    ⟨true, false, false, "Backup is fully compatible"⟩
  else if backupVersion > currentVersion then
    ⟨false, true, true, "Backup from newer app version. Update app to restore fully."⟩
  else if backupVersion < currentVersion then
    ⟨true, false, false, "Backup from older version. Will be migrated during restore."⟩
  else
    ⟨false, false, true, "Unknown backup version"⟩

/-- Map over a JSON array. -/
def mapItems (f : Json → Json) : JsonItems → JsonItems
  | .nil => .nil
  | .cons x tl => .cons (f x) (mapItems f tl)

/-- JS `x || null` on a decoded value. -/
def jsOrNull (v : Option Json) : Json :=
  match v with
  | some j => if j.truthy then j else .null
  | none => .null

/-- The v2 per-recipe migration (backupVersioning.ts:90-94): spread plus
`cooking_method` and `source_type` defaults computed from the original
record. -/
def migrateRecipeV2 (rec : Json) : Json :=
  match rec with
  | .obj fs =>
    .obj ((fs.set "cooking_method" (jsOrNull (fs.get "cooking_method"))).set "source_type"
      (if jsTruthy (fs.get "source_type") then (fs.get "source_type").getD .null
       else if jsTruthy (fs.get "source_url") then .str "url" else .str "manual"))
  | _ => .obj ((JsonFields.nil.set "cooking_method" .null).set "source_type" (.str "manual"))

/-- The v3 per-recipe migration (backupVersioning.ts:101-104). -/
def migrateRecipeV3 (rec : Json) : Json :=
  match rec with
  | .obj fs => .obj (fs.set "nutrition" (jsOrNull (fs.get "nutrition")))
  | _ => .obj (JsonFields.nil.set "nutrition" .null)

/-- `applyMigration` (backupVersioning.ts:83-114): the v2 and v3 cases
rewrite the `database` array in place when present; every other target
version leaves the data untouched. -/
def applyMigration (data : Json) (toVersion : Int) : Json :=
  if toVersion = 2 then
    match data with
    | .obj fs =>
      match fs.get "database" with
      | some (.arr items) => .obj (fs.set "database" (.arr (mapItems migrateRecipeV2 items)))
      | _ => data
    | _ => data
  else if toVersion = 3 then
    match data with
    | .obj fs =>
      match fs.get "database" with
      | some (.arr items) => .obj (fs.set "database" (.arr (mapItems migrateRecipeV3 items)))
      | _ => data
    | _ => data
  else data

/-- The step loop of `migrateBackupData` (backupVersioning.ts:75-77). -/
def migrateSteps : Json → Int → Nat → Json
  | d, _, 0 => d
  | d, v, n + 1 => migrateSteps (applyMigration d v) (v + 1) n

/-- `migrateBackupData` (backupVersioning.ts:66-80): apply the migrations
for every version in `(fromVersion, currentVersion]` in ascending order.
The JS shallow copy of the input is the identity in this value model. -/
def migrateBackupData (backupData : Json) (fromVersion currentVersion : Int) : Json :=
  migrateSteps backupData (fromVersion + 1) (currentVersion - fromVersion).toNat

/-- Result record of `validateBackupIntegrity`. -/
structure IntegrityResult where
  valid : Bool
  errors : List String
  deriving DecidableEq, Repr

/-- Array test of `Array.isArray`. -/
def isArrayJ : Option Json → Bool
  | some (.arr _) => true
  | _ => false

/-- The JS `typeof x === "number"` on a decoded value. -/
def isNumJ : Option Json → Bool
  | some (.num _) => true
  | _ => false

/-- The JS `typeof x === "string"` on a decoded value. -/
def isStrJ : Option Json → Bool
  | some (.str _) => true
  | _ => false

/-- JS template interpolation of the values the count-mismatch message can
carry (numbers in the payloads the app handles; the remaining displays
are approximated and unused by the checks the claims exercise). -/
def jsDisplay : Option Json → String
  | some (.num n) => ⟨intChars n⟩
  | some .null => "null"
  | some (.bool true) => "true"
  | some (.bool false) => "false"
  | some (.str s) => s
  | some (.arr _) => ""
  | some (.obj _) => "[object Object]"
  | none => "undefined"

/-- The JS `.length` read on the database value: arrays and strings have
one, everything else gives `undefined`. -/
def lenOf : Option Json → Option Json
  | some (.arr items) => some (.num items.length)
  | some (.str s) => some (.num s.length)
  | _ => none

/-- Strict JS equality on primitive values; distinct arrays and objects
never compare equal by reference. -/
def jsStrictEq : Option Json → Option Json → Bool
  | none, none => true
  | some (.num a), some (.num b) => a == b
  | some (.str a), some (.str b) => a == b
  | some (.bool a), some (.bool b) => a == b
  | some .null, some .null => true
  | _, _ => false

/-- Metadata sub-field errors of `validateBackupIntegrity`
(backupVersioning.ts:152-175), collected only when `metadata` is truthy. -/
def metadataErrors (backupData : Json) : List String :=
  let md := (backupData.field "metadata").getD .null
  (if !jsTruthy (md.field "created") || !isNumJ (md.field "created") then
    ["Invalid metadata: missing or invalid created timestamp"] else [])
  ++ (if !jsTruthy (md.field "app") || !isStrJ (md.field "app") then
    ["Invalid metadata: missing or invalid app version"] else [])
  ++ (if (md.field "schema").isNone || !isNumJ (md.field "schema") then
    ["Invalid metadata: missing or invalid schema version"] else [])
  ++ (if (md.field "count").isNone || !isNumJ (md.field "count") then
    ["Invalid metadata: missing or invalid recipe count"] else [])
  ++ (if jsTruthy (backupData.field "database")
        && !jsStrictEq (lenOf (backupData.field "database")) (md.field "count") then
    ["Recipe count mismatch: metadata says " ++ jsDisplay (md.field "count")
      ++ ", found " ++ jsDisplay (lenOf (backupData.field "database"))] else [])

/-- `validateBackupIntegrity` (backupVersioning.ts:132-181): each failed
check pushes one error; the verdict is that no error was collected. -/
def validateBackupIntegrity (backupData : Json) : IntegrityResult :=
  let errors :=
    (if !jsTruthy (backupData.field "metadata") then ["Missing backup metadata"] else [])
    ++ (if !jsTruthy (backupData.field "database") || !isArrayJ (backupData.field "database")
        then ["Invalid or missing recipe database"] else [])
    ++ (if !jsTruthy (backupData.field "timestamp") || !isNumJ (backupData.field "timestamp")
        then ["Invalid or missing timestamp"] else [])
    ++ (if jsTruthy (backupData.field "metadata") then metadataErrors backupData else [])
  ⟨errors.isEmpty, errors⟩

/-! ## Decoding a freshly generated link

Every generated link is the scheme marker followed by base64 of the UTF-8
bytes of the serialized payload; within the size budget the decoder
recovers the payload exactly and the outcome is decided by the
shape-dispatch stage. -/

theorem isPrefixOf_self_append (p l : List Char) : p.isPrefixOf (p ++ l) = true := by
  induction p with
  | nil => simp [List.isPrefixOf]
  | cons c cs ih => simp [List.isPrefixOf, ih]

theorem mkDeepLink_data (payload : Json) :
    (mkDeepLink payload).data
      = "myrecipebox://import/".data ++ b64Encode (utf8Chars (jsonChars payload)) := rfl

theorem length_mk (l : List Char) : (⟨l⟩ : String).length = l.length := rfl

/-- Decoding a generated link inside the size budget reaches the shape
dispatch with the original payload. -/
theorem parseDeepLink_mkDeepLink (stored : List Recipe) (cv : Int) (payload : Json)
    (hsize : (mkDeepLink payload).length ≤ 2048) :
    parseDeepLink stored cv (mkDeepLink payload) = importOutcome stored cv payload := by
  have hb64 := b64_rt (utf8Chars (jsonChars payload)) (utf8Chars_bytes_lt _)
  have hutf := utf8_rt (jsonChars payload)
  have hjson : parseJson ⟨jsonChars payload⟩ = some payload := parseJson_stringify payload
  have hpre := isPrefixOf_self_append "myrecipebox://import/".data
    (b64Encode (utf8Chars (jsonChars payload)))
  have hdropn : ("myrecipebox://import/" : String).length
      = ("myrecipebox://import/".data).length := rfl
  unfold parseDeepLink
  rw [mkDeepLink_data, hpre]
  simp only [Bool.not_true, Bool.false_eq_true, if_false]
  rw [if_neg (by omega), hdropn, List.drop_left]
  simp only [hb64, hutf, hjson]

/-- A shared concrete recipe used by the witnesses. -/
def tea : Recipe :=
  { id := "r1", title := "Tea",
    ingredients := some "water, leaves", instructions := some "steep" }

/-! ## Claims -/

theorem matchesStored_shareData (r e : Recipe) :
    matchesStored (shareDataRecipe r) e = true
      ↔ (e.title = r.title ∧ e.ingredients = some (r.ingredients.getD "")
          ∧ e.instructions = some (r.instructions.getD "")) := by
  unfold matchesStored
  have h1 : (shareDataRecipe r).field "title" = some (.str r.title) := rfl
  have h2 : (shareDataRecipe r).field "ingredients"
      = some (.str (r.ingredients.getD "")) := rfl
  have h3 : (shareDataRecipe r).field "instructions"
      = some (.str (r.instructions.getD "")) := rfl
  rw [h1, h2, h3]
  cases e.ingredients <;> cases e.instructions <;> simp [jsEqS, jsEqOS, and_assoc]

/-- C1: a recipe encoded by `generateDeepLink` (format version 3) decodes
through `parseDeepLink` to a valid result carrying exactly the encoded
recipe sub-record, provided the required fields id and title are
non-empty, the store is at schema version 3 or later, no stored recipe
matches the title-ingredients-instructions triple, and the link fits the
2048-byte budget (expressed as the encoder returning a link rather than
throwing).  The trailing conjuncts spell out that every version-3 field
of the decoded record is the field the encoder computed from the input
recipe. -/
theorem versioned_roundtrip (r : Recipe) (ts : Int) (stored : List Recipe) (cv : Int)
    (link : String)
    (hid : r.id ≠ "") (htitle : r.title ≠ "") (hcv : 3 ≤ cv)
    (hnodup : ∀ e ∈ stored, ¬(e.title = r.title
      ∧ e.ingredients = some (r.ingredients.getD "")
      ∧ e.instructions = some (r.instructions.getD "")))
    (hok : generateDeepLink r ts = .ok link) :
    parseDeepLink stored cv link
      = ⟨true, none, none, some (shareDataRecipe r), some (.num 3), some cv⟩
    ∧ (shareDataRecipe r).field "id" = some (.str r.id)
    ∧ (shareDataRecipe r).field "title" = some (.str r.title)
    ∧ (shareDataRecipe r).field "ingredients" = some (.str (r.ingredients.getD ""))
    ∧ (shareDataRecipe r).field "instructions" = some (.str (r.instructions.getD ""))
    ∧ (shareDataRecipe r).field "cooking_method" = some (jsOrNullStr r.difficulty)
    ∧ (shareDataRecipe r).field "source_type"
        = some (.str (if truthyOptStr r.source_url then "url" else "manual"))
    ∧ (shareDataRecipe r).field "nutrition" = some .null := by
  have hgen : generateDeepLink r ts
      = (if (mkDeepLink (createShareData r ts)).length > 2048
        then Except.error "Recipe data too large for sharing"
        else .ok (mkDeepLink (createShareData r ts))) := rfl
  rw [hgen] at hok
  by_cases hbig : (mkDeepLink (createShareData r ts)).length > 2048
  · rw [if_pos hbig] at hok; cases hok
  · rw [if_neg hbig] at hok
    obtain rfl : mkDeepLink (createShareData r ts) = link := Except.ok.inj hok
    refine ⟨?_, rfl, rfl, rfl, rfl, rfl, rfl, rfl⟩
    rw [parseDeepLink_mkDeepLink stored cv _ (by omega)]
    unfold importOutcome
    have hv : (createShareData r ts).field "v" = some (.num 3) := rfl
    have hrec : (createShareData r ts).field "recipe" = some (shareDataRecipe r) := rfl
    rw [hv, hrec]
    rw [show (jsTruthy (some (Json.num 3)) && jsTruthy (some (shareDataRecipe r))) = true
      from rfl, if_pos rfl]
    unfold versionedOutcome
    rw [hv, hrec]
    show (if (!jsTruthy ((shareDataRecipe r).field "id")
          || !jsTruthy ((shareDataRecipe r).field "title")) = true then invalidResult
        else finishImport stored cv (shareDataRecipe r) (Json.num 3)) = _
    rw [show jsTruthy ((shareDataRecipe r).field "id") = (r.id != "") from rfl,
      show jsTruthy ((shareDataRecipe r).field "title") = (r.title != "") from rfl,
      show (r.id != "") = true from by simp [hid],
      show (r.title != "") = true from by simp [htitle]]
    simp only [Bool.not_true, Bool.or_self, Bool.false_eq_true, if_false]
    have hdup : stored.any (matchesStored (shareDataRecipe r)) = false := by
      rw [List.any_eq_false]
      intro e he
      rw [matchesStored_shareData]
      exact hnodup e he
    unfold finishImport
    rw [if_neg (by simp [jsVersionGt]; omega),
      if_neg (show ¬(stored.any (matchesStored (shareDataRecipe r)) = true) from by
        rw [hdup]; simp)]

/-- Witness for C1 at the scenario-A recipe against an empty store at
schema version 3. -/
theorem versioned_roundtrip_witness :
    parseDeepLink [] 3 (mkDeepLink (createShareData tea 1700000000000))
      = ⟨true, none, none, some (shareDataRecipe tea), some (.num 3), some 3⟩ :=
  (versioned_roundtrip tea 1700000000000 [] 3
    (mkDeepLink (createShareData tea 1700000000000))
    (by decide) (by decide) (by omega) (by simp) rfl).1

/-- C4: `generateDeepLink` throws exactly when the complete link exceeds
the 2048-byte budget, and a returned token is always the complete link,
never a truncation. -/
theorem generateDeepLink_size_enforcement (r : Recipe) (ts : Int) :
    ((∃ e, generateDeepLink r ts = .error e)
      ↔ 2048 < (mkDeepLink (createShareData r ts)).length)
    ∧ ∀ s, generateDeepLink r ts = .ok s → s = mkDeepLink (createShareData r ts) := by
  have hgen : generateDeepLink r ts
      = (if (mkDeepLink (createShareData r ts)).length > 2048
        then Except.error "Recipe data too large for sharing"
        else .ok (mkDeepLink (createShareData r ts))) := rfl
  rw [hgen]
  by_cases h : (mkDeepLink (createShareData r ts)).length > 2048
  · rw [if_pos h]
    exact ⟨⟨fun _ => h, fun _ => ⟨_, rfl⟩⟩, fun s hs => by cases hs⟩
  · rw [if_neg h]
    refine ⟨⟨?_, fun hl => absurd hl h⟩, fun s hs => (Except.ok.inj hs).symm⟩
    rintro ⟨e, he⟩
    cases he

/-- Witness for C4: the tea recipe is inside the budget, so the encoder
returns the complete link. -/
theorem generateDeepLink_size_witness :
    generateDeepLink tea 1700000000000 = .ok (mkDeepLink (createShareData tea 1700000000000))
    ∧ mkDeepLink (createShareData tea 1700000000000)
        = mkDeepLink (createShareData tea 1700000000000) :=
  ⟨rfl, (generateDeepLink_size_enforcement tea 1700000000000).2 _ rfl⟩

/-- C3: `checkBackupCompatibility` classifies every integer pair by the
three-way comparison, and its fourth branch is unreachable: equal
versions are fully compatible with no update and no loss, a newer backup
is incompatible with update required and potential loss, an older backup
is compatible and migrates forward. -/
theorem checkBackupCompatibility_total (b c : Int) :
    checkBackupCompatibility b c
      = (if b = c then ⟨true, false, false, "Backup is fully compatible"⟩
        else if b > c then
          ⟨false, true, true, "Backup from newer app version. Update app to restore fully."⟩
        else ⟨true, false, false, "Backup from older version. Will be migrated during restore."⟩)
    ∧ checkBackupCompatibility b c ≠ ⟨false, false, true, "Unknown backup version"⟩ := by
  unfold checkBackupCompatibility
  constructor
  · split_ifs with h1 h2 h3
    · rfl
    · rfl
    · rfl
    · omega
  · split_ifs with h1 h2 h3
    · simp
    · simp
    · simp
    · omega

/-- Witness for C3 at the concrete pair (5, 3): the unknown-version
record is never produced. -/
theorem checkBackupCompatibility_total_witness :
    checkBackupCompatibility 5 3 ≠ ⟨false, false, true, "Unknown backup version"⟩ :=
  (checkBackupCompatibility_total 5 3).2

/-- C9: `applyMigration` is the identity at every target version other
than 2 and 3, so `migrateBackupData` over a range containing neither 2
nor 3 passes the backup through unchanged. -/
theorem applyMigration_passthrough :
    (∀ (data : Json) (v : Int), v ≠ 2 → v ≠ 3 → applyMigration data v = data)
    ∧ (∀ (data : Json) (f c : Int),
        (∀ v : Int, f < v → v ≤ c → v ≠ 2 ∧ v ≠ 3) → migrateBackupData data f c = data) := by
  have h1 : ∀ (data : Json) (v : Int), v ≠ 2 → v ≠ 3 → applyMigration data v = data := by
    intro data v h2 h3
    unfold applyMigration
    rw [if_neg h2, if_neg h3]
  refine ⟨h1, ?_⟩
  have hsteps : ∀ (n : Nat) (data : Json) (v : Int),
      (∀ i : Int, v ≤ i → i < v + n → i ≠ 2 ∧ i ≠ 3) → migrateSteps data v n = data := by
    intro n
    induction n with
    | zero => intro data v _; rfl
    | succ n ih =>
      intro data v hall
      have hv := hall v (by omega) (by omega)
      show migrateSteps (applyMigration data v) (v + 1) n = data
      rw [h1 data v hv.1 hv.2]
      exact ih data (v + 1) (fun i hi1 hi2 => hall i (by omega) (by push_cast at hi2 ⊢; omega))
  intro data f c hall
  unfold migrateBackupData
  exact hsteps (c - f).toNat data (f + 1)
    (fun i hi1 hi2 => hall i (by omega) (by omega))

/-- Witness for C9: migrating to version 7 changes nothing, and a
migration from version 3 to version 5 is a pass-through. -/
theorem applyMigration_passthrough_witness :
    applyMigration (.obj (.cons "database" (.arr .nil) .nil)) 7
        = .obj (.cons "database" (.arr .nil) .nil)
    ∧ migrateBackupData (.obj (.cons "database" (.arr .nil) .nil)) 3 5
        = .obj (.cons "database" (.arr .nil) .nil) :=
  ⟨applyMigration_passthrough.1 _ 7 (by decide) (by decide),
   applyMigration_passthrough.2 _ 3 5 (by intro v h1 h2; constructor <;> omega)⟩

/-- C2: the legacy round trip is broken in the code.  The encoder
`createShareableRecipe` hashes the record with `checksum` still present
as the empty string, while the decoder recomputes the hash over the
record with the `checksum` key deleted, so every link produced by
`generateLegacyDeepLink` fails its own checksum and decodes as
corrupted.  The last conjunct exhibits that the two hash inputs are
different strings for the failing input. -/
theorem legacy_roundtrip_corrupted :
    generateLegacyDeepLink tea 1700000000000
      = .ok (mkDeepLink (legacyPayload tea 1700000000000))
    ∧ parseDeepLink [] 3 (mkDeepLink (legacyPayload tea 1700000000000))
      = ⟨false, some "corrupted", some "Recipe data is corrupted", none, none, none⟩
    ∧ jsonStringify (.obj ((shareableFields tea
          (md5Hex (jsonStringify (.obj (shareableFields tea ""))))).erase "checksum"))
      ≠ jsonStringify (.obj (shareableFields tea "")) := by
  refine ⟨rfl, by decide, by decide⟩

/-! ## C5: which fields the integrity validator actually checks -/

/-- Backup document with valid database, timestamp and metadata but
missing preferences, version, compressed and checksum. -/
def backupNoPrefs : Json :=
  .obj (.ofList
    [("database", .arr .nil), ("timestamp", .num 5),
     ("metadata", .obj (.ofList [("created", .num 5), ("app", .str "1.3.0"),
       ("schema", .num 3), ("count", .num 0)]))])

/-- Counterexample to C5 as stated: a backup missing the top-level
`preferences`, `version`, `compressed` and `checksum` fields still
validates, because `validateBackupIntegrity` never looks at them. -/
theorem validateBackupIntegrity_ignores_other_fields :
    backupNoPrefs.field "preferences" = none
    ∧ backupNoPrefs.field "version" = none
    ∧ backupNoPrefs.field "compressed" = none
    ∧ backupNoPrefs.field "checksum" = none
    ∧ validateBackupIntegrity backupNoPrefs = ⟨true, []⟩ := by decide

/-- Scenario E snapshot: metadata says ten recipes, the database holds
nine. -/
def scenarioE : Json :=
  .obj (.ofList
    [("database", .arr (.ofList [.null, .null, .null, .null, .null, .null, .null,
        .null, .null])), ("timestamp", .num 5),
     ("metadata", .obj (.ofList [("created", .num 5), ("app", .str "1.3.0"),
       ("schema", .num 3), ("count", .num 10)]))])

/-- C5 as amended: the validator checks the top-level `database`,
`timestamp` and `metadata` fields only, collects one error per failed
check without stopping, validates the metadata sub-fields when metadata
is present, flags a count that disagrees with the database length, and
is valid exactly when no check failed; scenario E yields exactly the
count-mismatch error. -/
theorem validateBackupIntegrity_checked_fields (b : Json) :
    ((validateBackupIntegrity b).valid = true ↔ (validateBackupIntegrity b).errors = [])
    ∧ (jsTruthy (b.field "metadata") = false →
        "Missing backup metadata" ∈ (validateBackupIntegrity b).errors)
    ∧ (isArrayJ (b.field "database") = false →
        "Invalid or missing recipe database" ∈ (validateBackupIntegrity b).errors)
    ∧ (isNumJ (b.field "timestamp") = false →
        "Invalid or missing timestamp" ∈ (validateBackupIntegrity b).errors)
    ∧ (∀ md : Json, b.field "metadata" = some md → md.truthy = true →
        (jsTruthy (md.field "created") = false →
          "Invalid metadata: missing or invalid created timestamp"
            ∈ (validateBackupIntegrity b).errors)
        ∧ (isStrJ (md.field "app") = false →
          "Invalid metadata: missing or invalid app version"
            ∈ (validateBackupIntegrity b).errors)
        ∧ (isNumJ (md.field "schema") = false →
          "Invalid metadata: missing or invalid schema version"
            ∈ (validateBackupIntegrity b).errors)
        ∧ (isNumJ (md.field "count") = false →
          "Invalid metadata: missing or invalid recipe count"
            ∈ (validateBackupIntegrity b).errors)
        ∧ (jsTruthy (b.field "database") = true →
            jsStrictEq (lenOf (b.field "database")) (md.field "count") = false →
            "Recipe count mismatch: metadata says " ++ jsDisplay (md.field "count")
                ++ ", found " ++ jsDisplay (lenOf (b.field "database"))
              ∈ (validateBackupIntegrity b).errors))
    ∧ validateBackupIntegrity scenarioE
        = ⟨false, ["Recipe count mismatch: metadata says 10, found 9"]⟩ := by
  refine ⟨?_, ?_, ?_, ?_, ?_, by decide⟩
  · unfold validateBackupIntegrity
    simp [List.isEmpty_iff]
  · intro h
    unfold validateBackupIntegrity
    simp [h]
  · intro h
    unfold validateBackupIntegrity
    simp [h]
  · intro h
    unfold validateBackupIntegrity
    simp [h]
  · intro md hmd htr
    refine ⟨?_, ?_, ?_, ?_, ?_⟩
    · intro h
      unfold validateBackupIntegrity metadataErrors
      simp [hmd, htr, h]
      tauto
    · intro h
      unfold validateBackupIntegrity metadataErrors
      simp [hmd, htr, h]
      tauto
    · intro h
      unfold validateBackupIntegrity metadataErrors
      simp [hmd, htr, h]
      tauto
    · intro h
      unfold validateBackupIntegrity metadataErrors
      simp [hmd, htr, h]
      tauto
    · intro hdb h
      unfold validateBackupIntegrity metadataErrors
      simp [hmd, htr, hdb, h]
      tauto

/-- Witness for the amended C5 at a backup with no metadata. -/
theorem validateBackupIntegrity_checked_fields_witness :
    "Missing backup metadata" ∈ (validateBackupIntegrity (.obj .nil)).errors :=
  (validateBackupIntegrity_checked_fields (.obj .nil)).2.1 (by decide)

/-! ## C6, C7, C8: decode outcomes on arbitrary payloads -/

theorem jsEqS_iff (s : String) (v : Option Json) :
    jsEqS s v = true ↔ v = some (.str s) := by
  cases v with
  | none => simp [jsEqS]
  | some j =>
    cases j with
    | str t => simp [jsEqS]; exact eq_comm
    | null => simp [jsEqS]
    | bool b => simp [jsEqS]
    | num n => simp [jsEqS]
    | arr xs => simp [jsEqS]
    | obj fs => simp [jsEqS]

theorem jsEqOS_iff (o : Option String) (v : Option Json) :
    jsEqOS o v = true ↔ v = o.map .str := by
  cases o with
  | none => cases v <;> simp [jsEqOS]
  | some s =>
    cases v with
    | none => simp [jsEqOS]
    | some j =>
      cases j with
      | str t => simp [jsEqOS]; exact eq_comm
      | null => simp [jsEqOS]
      | bool b => simp [jsEqOS]
      | num n => simp [jsEqOS]
      | arr xs => simp [jsEqOS]
      | obj fs => simp [jsEqOS]

theorem matchesStored_iff (rec : Json) (e : Recipe) :
    matchesStored rec e = true
      ↔ (rec.field "title" = some (.str e.title)
          ∧ rec.field "ingredients" = e.ingredients.map .str
          ∧ rec.field "instructions" = e.instructions.map .str) := by
  simp [matchesStored, jsEqS_iff, jsEqOS_iff, and_assoc]

/-- A well-formed versioned payload reaches the shared version and
duplicate stage carrying its recipe sub-record and numeric version. -/
theorem importOutcome_versioned (stored : List Recipe) (cv : Int) (payload : Json)
    (v : Int) (rec : Json)
    (hv : payload.field "v" = some (.num v)) (hvne : v ≠ 0)
    (hrec : payload.field "recipe" = some rec) (hrtr : rec.truthy = true)
    (hid : jsTruthy (rec.field "id") = true)
    (htitle : jsTruthy (rec.field "title") = true) :
    importOutcome stored cv payload = finishImport stored cv rec (.num v) := by
  unfold importOutcome
  rw [hv, hrec]
  rw [show (jsTruthy (some (Json.num v)) && jsTruthy (some rec)) = true from by
    rw [show jsTruthy (some rec) = rec.truthy from rfl, hrtr]
    simp [jsTruthy, Json.truthy, hvne], if_pos rfl]
  unfold versionedOutcome
  rw [hv, hrec]
  show (if (!jsTruthy (rec.field "id") || !jsTruthy (rec.field "title")) = true
      then invalidResult else finishImport stored cv rec (Json.num v)) = _
  rw [hid, htitle]
  simp

/-- C7: a structurally valid versioned payload whose version passes the
check is classified a duplicate exactly when some stored recipe agrees
with the decoded record on title, ingredients and instructions; the
identifier plays no part in the comparison. -/
theorem duplicate_iff (stored : List Recipe) (cv : Int) (payload : Json)
    (v : Int) (rec : Json)
    (hv : payload.field "v" = some (.num v)) (hvne : v ≠ 0)
    (hrec : payload.field "recipe" = some rec) (hrtr : rec.truthy = true)
    (hid : jsTruthy (rec.field "id") = true)
    (htitle : jsTruthy (rec.field "title") = true)
    (hvcv : v ≤ cv)
    (hsize : (mkDeepLink payload).length ≤ 2048) :
    (parseDeepLink stored cv (mkDeepLink payload)).error = some "duplicate"
      ↔ ∃ e ∈ stored, rec.field "title" = some (.str e.title)
          ∧ rec.field "ingredients" = e.ingredients.map .str
          ∧ rec.field "instructions" = e.instructions.map .str := by
  rw [parseDeepLink_mkDeepLink _ _ _ hsize,
    importOutcome_versioned stored cv payload v rec hv hvne hrec hrtr hid htitle]
  have hany : stored.any (matchesStored rec) = true
      ↔ ∃ e ∈ stored, rec.field "title" = some (.str e.title)
          ∧ rec.field "ingredients" = e.ingredients.map .str
          ∧ rec.field "instructions" = e.instructions.map .str := by
    rw [List.any_eq_true]
    simp [matchesStored_iff]
  unfold finishImport
  rw [if_neg (by simp [jsVersionGt]; omega)]
  by_cases hdup : stored.any (matchesStored rec) = true
  · rw [if_pos hdup]
    exact iff_of_true rfl (hany.mp hdup)
  · rw [if_neg hdup]
    exact iff_of_false (by simp) (fun hex => hdup (hany.mpr hex))

/-- The stored copy and the incoming copy of the same recipe text under
different identifiers, for the C7 witness. -/
def dupStored : Recipe := { tea with id := "stored-id" }

def dupIncoming : Recipe := { tea with id := "incoming-id" }

def dupPayload : Json :=
  .obj (.cons "v" (.num 3) (.cons "recipe" (shareDataRecipe dupIncoming) .nil))

/-- Witness for C7: the incoming record has a different id than the
stored recipe but the same title, ingredients and instructions, and
the incoming share is flagged a duplicate. -/
theorem duplicate_iff_witness :
    (parseDeepLink [dupStored] 3 (mkDeepLink dupPayload)).error = some "duplicate" :=
  (duplicate_iff [dupStored] 3 dupPayload 3 (shareDataRecipe dupIncoming)
      rfl (by decide) rfl rfl (by decide) (by decide) (by decide) (by decide)).mpr
    ⟨dupStored, by simp, by decide⟩

/-- C8: a structurally valid versioned payload with version strictly
above the current schema version is rejected as a version mismatch with
the update-required message, and a version at or below the current one
proceeds past the version check to the duplicate stage. -/
theorem version_gate (stored : List Recipe) (cv : Int) (payload : Json)
    (v : Int) (rec : Json)
    (hv : payload.field "v" = some (.num v)) (hvne : v ≠ 0)
    (hrec : payload.field "recipe" = some rec) (hrtr : rec.truthy = true)
    (hid : jsTruthy (rec.field "id") = true)
    (htitle : jsTruthy (rec.field "title") = true)
    (hsize : (mkDeepLink payload).length ≤ 2048) :
    (v > cv → parseDeepLink stored cv (mkDeepLink payload)
        = ⟨false, some "version_mismatch", some "Update app to import this recipe",
            none, none, none⟩)
    ∧ (v ≤ cv →
        (parseDeepLink stored cv (mkDeepLink payload)).error ≠ some "version_mismatch"
        ∧ ((parseDeepLink stored cv (mkDeepLink payload)).error = some "duplicate"
            ∨ parseDeepLink stored cv (mkDeepLink payload)
              = ⟨true, none, none, some rec, some (.num v), some cv⟩)) := by
  rw [parseDeepLink_mkDeepLink _ _ _ hsize,
    importOutcome_versioned stored cv payload v rec hv hvne hrec hrtr hid htitle]
  unfold finishImport
  constructor
  · intro hgt
    rw [if_pos (by simp [jsVersionGt]; omega)]
  · intro hle
    rw [if_neg (by simp [jsVersionGt]; omega)]
    by_cases hdup : stored.any (matchesStored rec) = true
    · rw [if_pos hdup]
      exact ⟨by simp, Or.inl rfl⟩
    · rw [if_neg hdup]
      exact ⟨by simp, Or.inr rfl⟩

/-- A version-5 payload for the C8 witness. -/
def payloadV5 : Json :=
  .obj (.cons "v" (.num 5) (.cons "recipe" (shareDataRecipe tea) .nil))

/-- Witness for C8, scenario D: a payload at version 5 against a store at
version 3 is rejected as update-required. -/
theorem version_gate_witness :
    parseDeepLink [] 3 (mkDeepLink payloadV5)
      = ⟨false, some "version_mismatch", some "Update app to import this recipe",
          none, none, none⟩ :=
  (version_gate [] 3 payloadV5 5 (shareDataRecipe tea) rfl (by decide) rfl rfl
    (by decide) (by decide) (by decide)).1 (by omega)

/-- The MD5 hex digest is never the empty string. -/
theorem md5Hex_ne_empty (s : String) : md5Hex s ≠ "" := by
  have h : ∀ st : Nat × Nat × Nat × Nat,
      (⟨hexOfBytes (match st with
        | (a, b, c, d) => le4 a ++ le4 b ++ le4 c ++ le4 d)⟩ : String) ≠ "" := by
    rintro ⟨a, b, c, d⟩ heq
    have h2 := congrArg String.data heq
    simp [le4, hexOfBytes] at h2
  exact h (md5Blocks ((md5Pad (utf8Chars s.data)).length / 64)
    (md5Pad (utf8Chars s.data)) (0x67452301, 0xefcdab89, 0x98badcfe, 0x10325476))

/-- C6: corrupting the recipe sub-record of a well-formed legacy payload
anywhere outside its checksum field makes the decoder report the payload
corrupted.  The record `fs` carries a checksum matching its own content;
the corrupted record `fs2` keeps that checksum but its content hashes
differently (any single byte flip of the serialized record does this
unless it finds an MD5 collision; the witness discharges the hypothesis
for a concrete flip by computing both digests). -/
theorem legacy_corruption (stored : List Recipe) (cv ts : Int) (fs fs2 : JsonFields)
    (hts : ts ≠ 0)
    (hsum : (Json.obj fs).field "checksum"
      = some (.str (md5Hex (jsonStringify (.obj (fs.erase "checksum"))))))
    (htitle2 : jsTruthy ((Json.obj fs2).field "title") = true)
    (hsame : (Json.obj fs2).field "checksum" = (Json.obj fs).field "checksum")
    (hdiff : md5Hex (jsonStringify (.obj (fs2.erase "checksum")))
      ≠ md5Hex (jsonStringify (.obj (fs.erase "checksum"))))
    (hsize : (mkDeepLink (.obj (.cons "recipe" (.obj fs2)
        (.cons "timestamp" (.num ts) .nil)))).length ≤ 2048) :
    parseDeepLink stored cv (mkDeepLink (.obj (.cons "recipe" (.obj fs2)
        (.cons "timestamp" (.num ts) .nil))))
      = ⟨false, some "corrupted", some "Recipe data is corrupted", none, none, none⟩ := by
  rw [parseDeepLink_mkDeepLink _ _ _ hsize]
  unfold importOutcome
  have hvl : (Json.obj (.cons "recipe" (.obj fs2)
      (.cons "timestamp" (.num ts) .nil))).field "v" = none := rfl
  have hrl : (Json.obj (.cons "recipe" (.obj fs2)
      (.cons "timestamp" (.num ts) .nil))).field "recipe" = some (.obj fs2) := rfl
  have htl : (Json.obj (.cons "recipe" (.obj fs2)
      (.cons "timestamp" (.num ts) .nil))).field "timestamp" = some (.num ts) := rfl
  rw [hvl, hrl, htl]
  rw [if_neg (by simp [jsTruthy]), if_pos (by simp [jsTruthy, Json.truthy, hts])]
  unfold legacyOutcome
  rw [hrl]
  show (if (!jsTruthy ((Json.obj fs2).field "title")
        || !jsTruthy ((Json.obj fs2).field "checksum")) = true then invalidResult
      else if (!jsEqS (md5Hex (jsonStringify (.obj (fs2.erase "checksum"))))
          ((Json.obj fs2).field "checksum")) = true then corruptedResult
      else finishImport stored cv (.obj fs2)
        (if jsTruthy ((Json.obj fs2).field "version") = true
          then ((Json.obj fs2).field "version").getD .null else .num 1)) = _
  rw [htitle2, hsame, hsum]
  rw [show jsTruthy (some (Json.str (md5Hex (jsonStringify (.obj (fs.erase "checksum"))))))
      = true from by simp [jsTruthy, Json.truthy, md5Hex_ne_empty]]
  rw [if_neg (by simp)]
  rw [if_pos (by simp [jsEqS, hdiff])]
  rfl

/-- A correctly checksummed legacy record for the C6 witness. -/
def legacyBase : JsonFields :=
  .ofList [("title", .str "Tea"), ("ingredients", .str "water, leaves"),
    ("version", .num 1)]

/-- The same record with its embedded checksum written in, as a correct
legacy producer would emit it. -/
def legacyGood : JsonFields :=
  .ofList [("title", .str "Tea"), ("ingredients", .str "water, leaves"),
    ("version", .num 1),
    ("checksum", .str (md5Hex (jsonStringify (.obj legacyBase))))]

/-- The record with one byte of the title flipped (`e` to `g`, a flip of
bit 1) and the checksum untouched. -/
def legacyFlipped : JsonFields :=
  .ofList [("title", .str "Tga"), ("ingredients", .str "water, leaves"),
    ("version", .num 1),
    ("checksum", .str (md5Hex (jsonStringify (.obj legacyBase))))]

/-- Witness for C6 at a concrete single-byte flip; the digest inequality
hypothesis is discharged by computing both MD5 digests. -/
theorem legacy_corruption_witness :
    parseDeepLink [] 3 (mkDeepLink (.obj (.cons "recipe" (.obj legacyFlipped)
        (.cons "timestamp" (.num 1700000000000) .nil))))
      = ⟨false, some "corrupted", some "Recipe data is corrupted", none, none, none⟩ :=
  legacy_corruption [] 3 1700000000000 legacyGood legacyFlipped (by decide)
    (by decide) (by decide) (by decide) (by decide) (by decide)

/-! ## C10: sanitizer guarantees -/

/-- No angle bracket occurs in the string. -/
def noAngles (s : String) : Prop := ∀ c ∈ s.data, c ≠ '<' ∧ c ≠ '>'

/-- A sanitized optional field is bracket-free and within the length
cap. -/
def sanitizedField (o : Option String) : Prop :=
  ∀ s, o = some s → noAngles s ∧ s.length ≤ 5000

theorem mem_of_mem_jsTrim (c : Char) (l : List Char) (h : c ∈ jsTrim l) : c ∈ l := by
  unfold jsTrim at h
  rw [List.mem_reverse] at h
  have h2 := (List.dropWhile_sublist _).subset h
  rw [List.mem_reverse] at h2
  exact (List.dropWhile_sublist _).subset h2

theorem length_jsTrim_le (l : List Char) : (jsTrim l).length ≤ l.length := by
  unfold jsTrim
  calc ((l.dropWhile jsWhitespace).reverse.dropWhile jsWhitespace).reverse.length
      = ((l.dropWhile jsWhitespace).reverse.dropWhile jsWhitespace).length := by
        rw [List.length_reverse]
    _ ≤ (l.dropWhile jsWhitespace).reverse.length :=
        ((List.dropWhile_sublist _).length_le)
    _ = (l.dropWhile jsWhitespace).length := by rw [List.length_reverse]
    _ ≤ l.length := (List.dropWhile_sublist _).length_le

theorem noAngles_sanitizeStr (s : String) : noAngles (sanitizeStr s) := by
  intro c hc
  have hc2 : c ∈ jsTrim ((s.data.filter (fun c => !(c = '<' || c = '>'))).take 5000) := hc
  have hc3 := mem_of_mem_jsTrim _ _ hc2
  have hc4 := List.take_subset _ _ hc3
  have hc5 := List.of_mem_filter hc4
  simp at hc5
  exact hc5

theorem length_sanitizeStr_le (s : String) : (sanitizeStr s).length ≤ 5000 := by
  show (jsTrim ((s.data.filter (fun c => !(c = '<' || c = '>'))).take 5000)).length ≤ 5000
  calc (jsTrim ((s.data.filter (fun c => !(c = '<' || c = '>'))).take 5000)).length
      ≤ ((s.data.filter (fun c => !(c = '<' || c = '>'))).take 5000).length :=
        length_jsTrim_le _
    _ ≤ 5000 := by rw [List.length_take]; omega

theorem sanitizedField_sanitizeOpt (o : Option String) :
    sanitizedField (sanitizeOpt o) := by
  intro s hs
  cases o with
  | none => cases hs
  | some t =>
    have hs2 : (if t = "" then some t else some (sanitizeStr t)) = some s := hs
    by_cases ht : t = ""
    · rw [if_pos ht] at hs2
      cases hs2
      subst ht
      exact ⟨fun c hc => absurd hc (by simp), by simp⟩
    · rw [if_neg ht] at hs2
      cases hs2
      exact ⟨noAngles_sanitizeStr t, length_sanitizeStr_le t⟩

/-- C10: the sanitizer returns a record whose title is nonempty,
bracket-free and capped at 5000 characters, whose optional text fields
are bracket-free and capped, and whose tag list holds only nonempty
bracket-free capped tags. -/
theorem sanitizeRecipeData_props (r : ShareableRecipe) :
    ((sanitizeRecipeData r).title ≠ "" ∧ noAngles (sanitizeRecipeData r).title
      ∧ (sanitizeRecipeData r).title.length ≤ 5000)
    ∧ sanitizedField (sanitizeRecipeData r).description
    ∧ sanitizedField (sanitizeRecipeData r).ingredients
    ∧ sanitizedField (sanitizeRecipeData r).instructions
    ∧ sanitizedField (sanitizeRecipeData r).notes
    ∧ sanitizedField (sanitizeRecipeData r).cuisine
    ∧ (∀ l, (sanitizeRecipeData r).tags = some l →
        ∀ t ∈ l, t ≠ "" ∧ noAngles t ∧ t.length ≤ 5000) := by
  refine ⟨?_, sanitizedField_sanitizeOpt _, sanitizedField_sanitizeOpt _,
    sanitizedField_sanitizeOpt _, sanitizedField_sanitizeOpt _,
    sanitizedField_sanitizeOpt _, ?_⟩
  · show ((fun t => if t = "" then "Untitled Recipe" else t)
        (if r.title = "" then "" else sanitizeStr r.title)) ≠ ""
      ∧ noAngles ((fun t => if t = "" then "Untitled Recipe" else t)
        (if r.title = "" then "" else sanitizeStr r.title))
      ∧ ((fun t => if t = "" then "Untitled Recipe" else t)
        (if r.title = "" then "" else sanitizeStr r.title)).length ≤ 5000
    by_cases h0 : (if r.title = "" then "" else sanitizeStr r.title) = ""
    · rw [h0]
      show ("Untitled Recipe" : String) ≠ "" ∧ noAngles "Untitled Recipe"
        ∧ ("Untitled Recipe" : String).length ≤ 5000
      refine ⟨by decide, ?_, by decide⟩
      show ∀ c ∈ ("Untitled Recipe" : String).data, c ≠ '<' ∧ c ≠ '>'
      decide
    · simp only [if_neg h0]
      by_cases ht : r.title = ""
      · exact absurd (by rw [if_pos ht]) h0
      · rw [if_neg ht] at h0 ⊢
        exact ⟨h0, noAngles_sanitizeStr r.title, length_sanitizeStr_le r.title⟩
  · intro l hl t ht
    have hl2 : (((r.tags.getD []).map
        (fun tg => if tg = "" then "" else sanitizeStr tg)).filter
          (fun tg => tg ≠ "")) = l := by
      have : (sanitizeRecipeData r).tags = some (((r.tags.getD []).map
          (fun tg => if tg = "" then "" else sanitizeStr tg)).filter
            (fun tg => tg ≠ "")) := rfl
      rw [this] at hl
      exact Option.some.inj hl
    rw [← hl2] at ht
    have hne : t ≠ "" := by
      have := List.of_mem_filter ht
      simpa using this
    have hmem := List.mem_of_mem_filter ht
    rw [List.mem_map] at hmem
    obtain ⟨tg, _, htg⟩ := hmem
    by_cases htg0 : tg = ""
    · rw [if_pos htg0] at htg
      exact absurd htg.symm hne
    · rw [if_neg htg0] at htg
      subst htg
      exact ⟨hne, noAngles_sanitizeStr tg, length_sanitizeStr_le tg⟩

/-- A record exercising the sanitizer for the C10 witness. -/
def dirtyRecipe : ShareableRecipe :=
  { title := " <b>Tea</b> ", description := some "x<y>z",
    tags := some ["ok", "", "<>"] }

/-- Witness for C10 at a concrete record: nonempty bracket-free title and
a sanitized description, with the inner hypotheses discharged at the
evaluated field values. -/
theorem sanitizeRecipeData_props_witness :
    (sanitizeRecipeData dirtyRecipe).title ≠ ""
    ∧ (noAngles "xyz" ∧ ("xyz" : String).length ≤ 5000)
    ∧ (∀ t ∈ ["ok"], t ≠ "" ∧ noAngles t ∧ t.length ≤ 5000) := by
  have h := sanitizeRecipeData_props dirtyRecipe
  refine ⟨h.1.1, h.2.1 "xyz" (by decide), h.2.2.2.2.2.2 ["ok"] (by decide)⟩

end RecipeBox
